import Mathlib

/-!
Verification of the table-interpolation core (Table.cpp) of GalSim.

Doubles are modelled as exact rationals (ℚ): the claims under scrutiny are
stated "under exact arithmetic".  Array reads that C++ performs without a
bounds check are modelled two ways:
* `zget?` returns `none` for an out-of-bounds index: in functions where the
  claims concern memory safety (the `ArgVec` index search) an out-of-bounds
  read -- undefined behaviour in C++ -- surfaces as a `none` result;
* `zgetD` returns the junk value 0 for an out-of-bounds index, used in the
  interpolation formulas whose claims always keep the indices in bounds.
C++ `int` indices are modelled as ℤ.

The while-loops of the uniform-spacing search are given explicit fuel
(always called with fuel `size + 1`); each iteration of the C++ loop reads
a fresh array cell at a strictly increasing / decreasing index, so under
defined behaviour the loop performs at most `size` iterations and the fuel
is never exhausted (running out of fuel yields `none`, i.e. is identified
with the undefined behaviour of running off the array).
-/

attribute [local semireducible] Rat.mul Rat.add Rat.sub Rat.inv

namespace GalsimTable

/-- Checked read of `A[k]` for an `int` index: `none` models the undefined
behaviour of an out-of-bounds read. -/
def zget? (A : Array ℚ) (k : ℤ) : Option ℚ :=
  if k < 0 then none else A[k.toNat]?

/-- Total read of `A[k]` with junk value 0 out of bounds. -/
def zgetD (A : Array ℚ) (k : ℤ) : ℚ :=
  if k < 0 then 0 else A.getD k.toNat 0

/-- `int(std::ceil q)` under exact arithmetic (computable ceiling on ℚ). -/
def qceil (q : ℚ) : ℤ := -Rat.floor (-q)

/-- Strict monotonicity of the backing array, as a decidable check (the C++
caller's contract "strictly increasing"). -/
def strictIncrB (A : Array ℚ) : Bool :=
  (List.range (A.size - 1)).all fun i => A.getD i 0 < A.getD (i+1) 0

/-- `ArgVec`: borrows the argument array (Table.cpp lines 39-76).  The
derived members `_da`, `_equalSpaced` and the slops are pure functions of
the array and are defined below; the mutable `_lastIndex` is threaded
explicitly through `upperIndex`. -/
structure ArgVec where
  vec : Array ℚ
deriving DecidableEq

/-- `_n` of `ArgVec`. -/
def ArgVec.n (v : ArgVec) : ℤ := v.vec.size

/-- `front()`: `*_vec`. -/
def ArgVec.front (v : ArgVec) : ℚ := v.vec.getD 0 0

/-- `back()`: `*(_vec + _n - 1)`. -/
def ArgVec.back (v : ArgVec) : ℚ := v.vec.getD (v.vec.size - 1) 0

/-- `_da = (back() - front()) / (_n-1)` from the ArgVec constructor. -/
def ArgVec.da (v : ArgVec) : ℚ := (v.back - v.front) / ((v.vec.size : ℚ) - 1)

/-- `_equalSpaced`: the constructor's loop sets it to false exactly when some
node's offset from the first node, in units of `_da`, deviates from its index
by more than the tolerance 0.01 (`for (int i=1; i<_n; i++)`). -/
def ArgVec.equalSpaced (v : ArgVec) : Bool :=
  (List.range' 1 (v.vec.size - 1)).all fun i =>
    |(v.vec.getD i 0 - v.vec.getD 0 0) / v.da - (i : ℚ)| ≤ 1/100

/-- `_lower_slop = (_vec[1]-_vec[0]) * 1.e-6` (set by the constructor; never
read by `upperIndex` in this translation unit). -/
def ArgVec.lower_slop (v : ArgVec) : ℚ := (v.vec.getD 1 0 - v.vec.getD 0 0) * (1/1000000)

/-- `_upper_slop = (_vec[_n-1]-_vec[_n-2]) * 1.e-6`. -/
def ArgVec.upper_slop (v : ArgVec) : ℚ :=
  (v.vec.getD (v.vec.size - 1) 0 - v.vec.getD (v.vec.size - 2) 0) * (1/1000000)

/-- `_lastIndex = 1`: initial value of the mutable hint set by the ArgVec
constructor. -/
def ArgVec.lastIndex0 : ℤ := 1

/-- The ArgVec constructor, with its array reads checked: it reads
`_vec[0]`, `_vec[_n-1]` (for `_da`), `_vec[1]` and `_vec[_n-2]` (for the
slops), so it has defined behaviour exactly when `n ≥ 2`. -/
def mkArgVec (A : Array ℚ) : Option ArgVec := do
  let _ ← zget? A ((A.size : ℤ) - 1)
  let _ ← zget? A 0
  let _ ← zget? A 1
  let _ ← zget? A ((A.size : ℤ) - 2)
  some ⟨A⟩

/-- `while (a > _vec[i]) ++i;` with checked reads and explicit fuel. -/
def upWhile (A : Array ℚ) (a : ℚ) : ℕ → ℤ → Option ℤ
  | 0, _ => none
  | fuel+1, i =>
    match zget? A i with
    | none => none
    | some x => if a > x then upWhile A a fuel (i+1) else some i

/-- `while (a < _vec[i-1]) --i;` with checked reads and explicit fuel. -/
def downWhile (A : Array ℚ) (a : ℚ) : ℕ → ℤ → Option ℤ
  | 0, _ => none
  | fuel+1, i =>
    match zget? A (i-1) with
    | none => none
    | some x => if a < x then downWhile A a fuel (i-1) else some i

/-- `std::upper_bound(begin()+lo, begin()+lo+cnt, a) - begin()`: the first
index `k` in the range with `a < A[k]`, or the end of the range.  The STL
routine is specified purely by this result; reads outside the array are
undefined behaviour (`none`). -/
def upperBoundAux (A : Array ℚ) (a : ℚ) : ℕ → ℤ → Option ℤ
  | 0, lo => some lo
  | cnt+1, lo =>
    match zget? A lo with
    | none => none
    | some x => if a < x then some lo else upperBoundAux A a cnt (lo+1)

/-- `std::lower_bound(begin()+lo, begin()+lo+cnt, a) - begin()`: the first
index `k` in the range with `A[k] ≥ a`, or the end of the range. -/
def lowerBoundAux (A : Array ℚ) (a : ℚ) : ℕ → ℤ → Option ℤ
  | 0, lo => some lo
  | cnt+1, lo =>
    match zget? A lo with
    | none => none
    | some x => if x < a then lowerBoundAux A a cnt (lo+1) else some lo

/-- The start index of the equal-spaced path of `upperIndex`:
`int i = int(std::ceil((a-front()) / _da));` followed by the two
rounding-error adjustments `if (i >= _n) --i;` and `if (i == 0) ++i;`. -/
def ArgVec.uniStart (v : ArgVec) (a : ℚ) : ℤ :=
  let i0 : ℤ := qceil ((a - v.front) / v.da)
  let i1 : ℤ := if i0 ≥ v.n then i0 - 1 else i0
  if i1 = 0 then i1 + 1 else i1

/-- `ArgVec::upperIndex(a)` (Table.cpp lines 79-140).  The mutable hint
`_lastIndex` is passed in as `last` and the (result, new hint) pair is
returned; `none` models undefined behaviour (an out-of-bounds read). -/
def ArgVec.upperIndex (v : ArgVec) (last : ℤ) (a : ℚ) : Option (ℤ × ℤ) :=
  if a < v.front then some (1, last)
  else if a > v.back then some (v.n - 1, last)
  else if v.equalSpaced then
    match upWhile v.vec a (v.vec.size + 1) (v.uniStart a) with
    | none => none
    | some i3 =>
      match downWhile v.vec a (v.vec.size + 1) i3 with
      | none => none
      | some i4 => some (i4, last)
  else
    match zget? v.vec (last - 1) with
    | none => none
    | some vlm1 =>
      if a < vlm1 then
        match zget? v.vec (last - 2) with
        | none => none
        | some vlm2 =>
          if a ≥ vlm2 then some (last - 1, last - 1)
          else
            match upperBoundAux v.vec a (last - 1).toNat 0 with
            | none => none
            | some p => some (p, p)
      else
        match zget? v.vec last with
        | none => none
        | some vl =>
          if a > vl then
            match zget? v.vec (last + 1) with
            | none => none
            | some vlp1 =>
              if a ≤ vlp1 then some (last + 1, last + 1)
              else
                match lowerBoundAux v.vec a (v.n - (last + 1)).toNat (last + 1) with
                | none => none
                | some p => some (p, p)
          else some (last, last)

/-- The `Table::interpolant` mode tag.  The enum's five named values live in
the header Table.h; `other z` stands for any other value of the underlying
integer type cast into the enum (the `default:` case of the constructor's
switch). -/
inductive Interp where
  | linear
  | floor
  | ceil
  | nearest
  | spline
  | other (z : ℤ)
deriving DecidableEq

/-- `true` for the five named mode tags. -/
def Interp.known : Interp → Bool
  | .other _ => false
  | _ => true

/-- `Table::TableImpl::linearInterpolate`. -/
def linearInterpolate (x v : Array ℚ) (a : ℚ) (i : ℤ) : ℚ :=
  let ax := (zgetD x i - a) / (zgetD x i - zgetD x (i-1))
  let bx := 1 - ax
  zgetD v i * bx + zgetD v (i-1) * ax

/-- `Table::TableImpl::floorInterpolate`: `if (a == _args[i]) i++;
return _vals[i-1];`. -/
def floorInterpolate (x v : Array ℚ) (a : ℚ) (i : ℤ) : ℚ :=
  let i := if a = zgetD x i then i + 1 else i
  zgetD v (i - 1)

/-- `Table::TableImpl::ceilInterpolate`: `if (a == _args[i-1]) i--;
return _vals[i];`. -/
def ceilInterpolate (x v : Array ℚ) (a : ℚ) (i : ℤ) : ℚ :=
  let i := if a = zgetD x (i-1) then i - 1 else i
  zgetD v i

/-- `Table::TableImpl::nearestInterpolate`:
`if ((a - _args[i-1]) < (_args[i] - a)) i--; return _vals[i];`. -/
def nearestInterpolate (x v : Array ℚ) (a : ℚ) (i : ℤ) : ℚ :=
  let i := if a - zgetD x (i-1) < zgetD x i - a then i - 1 else i
  zgetD v i

/-- `Table::TableImpl::splineInterpolate` (the factored form actually
compiled, lines 321-331). -/
def splineInterpolate (x v y2 : Array ℚ) (a : ℚ) (i : ℤ) : ℚ :=
  let h := zgetD x i - zgetD x (i-1)
  let aa := zgetD x i - a
  let bb := h - aa
  (aa * zgetD v (i-1) + bb * zgetD v i -
    (1/6) * aa * bb * ((aa + h) * zgetD y2 (i-1) + (bb + h) * zgetD y2 i)) / h

/-- Construction-time failures of the C++ code: `ub` stands for undefined
behaviour, `runtimeError` for a thrown `std::runtime_error`, `lengthError`
for the `std::length_error` thrown by a `std::vector` constructor whose
requested size exceeds `max_size()`. -/
inductive CError where
  | ub
  | runtimeError (msg : String)
  | lengthError
deriving DecidableEq

deriving instance DecidableEq for Except

/-- `x[i+1] - x[i]`, the interval lengths of the argument grid. -/
def hseq (x : Array ℚ) (i : ℕ) : ℚ := x.getD (i+1) 0 - x.getD i 0

/-- The right-hand side loaded into `_y2[i]` by the first loop of the
non-TMV branch of `setupSpline` (lines 248-251):
`6*((v[i+1]-v[i])/(x[i+1]-x[i]) - (v[i]-v[i-1])/(x[i]-x[i-1]))`. -/
def splineRHS (x y : Array ℚ) (i : ℕ) : ℚ :=
  6 * ((y.getD (i+1) 0 - y.getD i 0) / (x.getD (i+1) 0 - x.getD i 0) -
       (y.getD i 0 - y.getD (i-1) 0) / (x.getD i 0 - x.getD (i-1) 0))

/-- `_y2` after `resize(_n)` (zero-filled), the zero writes at both ends and
the right-hand-side loop `for (i=1; i<=_n-2; i++)`. -/
def y2Init (x y : Array ℚ) (n : ℕ) : Array ℚ :=
  (List.range' 1 (n-2)).foldl (fun arr i => arr.setD i (splineRHS x y i)) (Array.mkArray n 0)

/-- One pass of the forward-elimination loop of the Thomas algorithm
(lines 252-262), iterations `i, i+1, ..` with `cnt` iterations of budget;
the state is `(y2, c, bb)`.  At `i == m` (`m = _n-2`) the loop body only
performs the division and breaks. -/
def fwdAux (x : Array ℚ) (m : ℕ) : ℕ → ℕ → Array ℚ × Array ℚ × ℚ → Array ℚ × Array ℚ × ℚ
  | 0, _, st => st
  | cnt+1, i, (y2, c, bb) =>
    let y2a := y2.setD i (y2.getD i 0 / bb)
    if i = m then (y2a, c, bb)
    else
      let a := x.getD (i+1) 0 - x.getD i 0
      let ca := c.setD (i-1) (a / bb)
      let bb2 := 2 * (x.getD (i+2) 0 - x.getD i 0) - a * (a / bb)
      let y2b := y2a.setD (i+1) (y2a.getD (i+1) 0 - a * y2a.getD i 0)
      fwdAux x m cnt (i+1) (y2b, ca, bb2)

/-- The back-substitution loop `for (int i=_n-3; i>0; --i)`
(lines 263-265); the counter runs `i, i-1, .., 1`. -/
def bwdAux (c : Array ℚ) : ℕ → Array ℚ → Array ℚ
  | 0, y2 => y2
  | j+1, y2 => bwdAux c j (y2.setD (j+1) (y2.getD (j+1) 0 - c.getD j 0 * y2.getD (j+2) 0))

/-- `Table::TableImpl::setupSpline` (non-TMV branch, the one described by
the spec).  For `_n != 3` the else-branch first constructs
`std::vector<double> c(_n-3)`; for `_n < 3` the `int` value `_n-3` is
negative and converts to a `size_t` larger than `max_size()`, so the vector
constructor throws `std::length_error` -- construction aborts. -/
def setupSpline (x y : Array ℚ) : Except CError (Array ℚ) :=
  let n := x.size
  if n = 3 then
    Except.ok ((Array.mkArray n (0:ℚ)).setD 1
      (3 * ((y.getD 2 0 - y.getD 1 0) / (x.getD 2 0 - x.getD 1 0) -
            (y.getD 1 0 - y.getD 0 0) / (x.getD 1 0 - x.getD 0 0)) / (x.getD 2 0 - x.getD 0 0)))
  else if (n : ℤ) - 3 < 0 then Except.error CError.lengthError
  else
    let m := n - 2
    let st := fwdAux x m m 1 (y2Init x y n, Array.mkArray (m-1) 0, 2 * (x.getD 2 0 - x.getD 0 0))
    Except.ok (bwdAux st.2.1 (n-3) st.1)

/-- The 1D `Table::TableImpl` after construction. -/
structure Table1 where
  iType : Interp
  args : ArgVec
  vals : Array ℚ
  y2 : Array ℚ
deriving DecidableEq

/-- The `Table::TableImpl` constructor (lines 172-196): the member-init list
builds the `ArgVec` (whose reads must be in bounds), the switch rejects an
unrecognized mode tag with `std::runtime_error("invalid interpolation
method")`, and spline mode runs `setupSpline`. -/
def tableConstruct (args vals : Array ℚ) (t : Interp) : Except CError Table1 :=
  match mkArgVec args with
  | none => Except.error CError.ub
  | some av =>
    match t with
    | .other _ => Except.error (CError.runtimeError ("invalid interpolation method"))
    | .spline =>
      match setupSpline args vals with
      | .error e => Except.error e
      | .ok y2 => Except.ok ⟨.spline, av, vals, y2⟩
    | ti => Except.ok ⟨ti, av, vals, #[]⟩

/-- The dispatch through the stored member-function pointer `interpolate`. -/
def interpValue (t : Table1) (a : ℚ) (i : ℤ) : ℚ :=
  match t.iType with
  | .linear => linearInterpolate t.args.vec t.vals a i
  | .floor => floorInterpolate t.args.vec t.vals a i
  | .ceil => ceilInterpolate t.args.vec t.vals a i
  | .nearest => nearestInterpolate t.args.vec t.vals a i
  | .spline => splineInterpolate t.args.vec t.vals t.y2 a i
  | .other _ => 0

/-- `Table::lookup` → `TableImpl::lookup`: resolve the bracket index, then
apply the mode's formula.  The hint is threaded as in `upperIndex`. -/
def tableLookup (t : Table1) (last : ℤ) (a : ℚ) : Option (ℚ × ℤ) :=
  (t.args.upperIndex last a).map fun p => (interpValue t a p.1, p.2)

/-- `int(std::floor q)` under exact arithmetic. -/
def qfloor (q : ℚ) : ℤ := Rat.floor q

/-- `10.*std::numeric_limits<double>::epsilon()` as an exact rational
(epsilon of IEEE double is 2^-52). -/
def tenEps : ℚ := 10 / 4503599627370496

/-- The externally supplied separable kernel seen through the
`InterpolantXY` wrapper: support radius `xrange()`, the `isExactAtNodes()`
flag and the pointwise weight `xval(x, y)`. -/
structure Interpolant where
  xrange : ℚ
  isExactAtNodes : Bool
  xval : ℚ → ℚ → ℚ

/-- The `Table2D::interpolant` mode tag (enum in Table2D's header); `other z`
stands for an unrecognized underlying value (the `default:` of `makeImpl`). -/
inductive Interp2 where
  | floor
  | ceil
  | nearest
  | linear
  | cubic
  | cubicConvolve
  | interpolant2d
  | other (z : ℤ)
deriving DecidableEq

/-- A constructed `Table2D` implementation: the two `ArgVec`s and the
borrowed row-major `Nx × Ny` value grid of `T2DCRTP`, the mode tag selecting
the concrete `T2D...` subclass, the three auxiliary derivative grids of
`T2DCubic`, and the kernel copy plus `_nx` of `T2DInterpolant2D` (fields not
used by the active mode are junk). -/
structure Table2D where
  xargs : ArgVec
  yargs : ArgVec
  vals : Array ℚ
  ny : ℤ
  nx : ℤ
  iType : Interp2
  dfdx : Array ℚ
  dfdy : Array ℚ
  d2fdxdy : Array ℚ
  interp2d : Interpolant

/-- `T2DFloor::interp`. -/
def t2dFloorInterp (t : Table2D) (x y : ℚ) (i j : ℤ) : ℚ :=
  let i := if x = zgetD t.xargs.vec i then i + 1 else i
  let j := if y = zgetD t.yargs.vec j then j + 1 else j
  zgetD t.vals ((i-1) * t.ny + j - 1)

/-- `T2DCeil::interp`. -/
def t2dCeilInterp (t : Table2D) (x y : ℚ) (i j : ℤ) : ℚ :=
  let i := if x = zgetD t.xargs.vec (i-1) then i - 1 else i
  let j := if y = zgetD t.yargs.vec (j-1) then j - 1 else j
  zgetD t.vals (i * t.ny + j)

/-- `T2DNearest::interp`. -/
def t2dNearestInterp (t : Table2D) (x y : ℚ) (i j : ℤ) : ℚ :=
  let i := if x - zgetD t.xargs.vec (i-1) < zgetD t.xargs.vec i - x then i - 1 else i
  let j := if y - zgetD t.yargs.vec (j-1) < zgetD t.yargs.vec j - y then j - 1 else j
  zgetD t.vals (i * t.ny + j)

/-- `T2DLinear::interp`. -/
def t2dLinearInterp (t : Table2D) (x y : ℚ) (i j : ℤ) : ℚ :=
  let ax := (zgetD t.xargs.vec i - x) / (zgetD t.xargs.vec i - zgetD t.xargs.vec (i-1))
  let ay := (zgetD t.yargs.vec j - y) / (zgetD t.yargs.vec j - zgetD t.yargs.vec (j-1))
  let bx := 1 - ax
  let by' := 1 - ay
  zgetD t.vals ((i-1) * t.ny + j - 1) * ax * ay
    + zgetD t.vals (i * t.ny + j - 1) * bx * ay
    + zgetD t.vals ((i-1) * t.ny + j) * ax * by'
    + zgetD t.vals (i * t.ny + j) * bx * by'

/-- `T2DLinear::grad`. -/
def t2dLinearGrad (t : Table2D) (x y : ℚ) (i j : ℤ) : ℚ × ℚ :=
  let dx := zgetD t.xargs.vec i - zgetD t.xargs.vec (i-1)
  let dy := zgetD t.yargs.vec j - zgetD t.yargs.vec (j-1)
  let f00 := zgetD t.vals ((i-1) * t.ny + j - 1)
  let f01 := zgetD t.vals ((i-1) * t.ny + j)
  let f10 := zgetD t.vals (i * t.ny + j - 1)
  let f11 := zgetD t.vals (i * t.ny + j)
  let ax := (zgetD t.xargs.vec i - x) / (zgetD t.xargs.vec i - zgetD t.xargs.vec (i-1))
  let bx := 1 - ax
  let ay := (zgetD t.yargs.vec j - y) / (zgetD t.yargs.vec j - zgetD t.yargs.vec (j-1))
  let by' := 1 - ay
  (((f10 - f00) * ay + (f11 - f01) * by') / dx,
   ((f01 - f00) * ax + (f11 - f10) * bx) / dy)

/-- `T2DCubic::oneDSpline` (cubic Hermite on [0,1]). -/
def oneDSplineH (x val0 val1 der0 der1 : ℚ) : ℚ :=
  let a := 2 * (val0 - val1) + der0 + der1
  let b := 3 * (val1 - val0) - 2 * der0 - der1
  let c := der0
  let d := val0
  d + x * (c + x * (b + x * a))

/-- `T2DCubic::oneDGrad`. -/
def oneDGradH (x val0 val1 der0 der1 : ℚ) : ℚ :=
  let a := 2 * (val0 - val1) + der0 + der1
  let b := 3 * (val1 - val0) - 2 * der0 - der1
  let c := der0
  c + x * (2 * b + x * 3 * a)

/-- `T2DCubic::interp`. -/
def t2dCubicInterp (t : Table2D) (x y : ℚ) (i j : ℤ) : ℚ :=
  let dxgrid := zgetD t.xargs.vec i - zgetD t.xargs.vec (i-1)
  let dygrid := zgetD t.yargs.vec j - zgetD t.yargs.vec (j-1)
  let dx := (x - zgetD t.xargs.vec (i-1)) / dxgrid
  let dy := (y - zgetD t.yargs.vec (j-1)) / dygrid
  let val0 := oneDSplineH dx (zgetD t.vals ((i-1) * t.ny + j - 1)) (zgetD t.vals (i * t.ny + j - 1))
      (zgetD t.dfdx ((i-1) * t.ny + j - 1) * dxgrid) (zgetD t.dfdx (i * t.ny + j - 1) * dxgrid)
  let val1 := oneDSplineH dx (zgetD t.vals ((i-1) * t.ny + j)) (zgetD t.vals (i * t.ny + j))
      (zgetD t.dfdx ((i-1) * t.ny + j) * dxgrid) (zgetD t.dfdx (i * t.ny + j) * dxgrid)
  let der0 := oneDSplineH dx (zgetD t.dfdy ((i-1) * t.ny + j - 1)) (zgetD t.dfdy (i * t.ny + j - 1))
      (zgetD t.d2fdxdy ((i-1) * t.ny + j - 1) * dxgrid) (zgetD t.d2fdxdy (i * t.ny + j - 1) * dxgrid)
  let der1 := oneDSplineH dx (zgetD t.dfdy ((i-1) * t.ny + j)) (zgetD t.dfdy (i * t.ny + j))
      (zgetD t.d2fdxdy ((i-1) * t.ny + j) * dxgrid) (zgetD t.d2fdxdy (i * t.ny + j) * dxgrid)
  oneDSplineH dy val0 val1 (der0 * dygrid) (der1 * dygrid)

/-- `T2DCubic::grad`. -/
def t2dCubicGrad (t : Table2D) (x y : ℚ) (i j : ℤ) : ℚ × ℚ :=
  let dxgrid := zgetD t.xargs.vec i - zgetD t.xargs.vec (i-1)
  let dygrid := zgetD t.yargs.vec j - zgetD t.yargs.vec (j-1)
  let dx := (x - zgetD t.xargs.vec (i-1)) / dxgrid
  let dy := (y - zgetD t.yargs.vec (j-1)) / dygrid
  let xval0 := oneDGradH dx (zgetD t.vals ((i-1) * t.ny + j - 1)) (zgetD t.vals (i * t.ny + j - 1))
      (zgetD t.dfdx ((i-1) * t.ny + j - 1) * dxgrid) (zgetD t.dfdx (i * t.ny + j - 1) * dxgrid)
  let xval1 := oneDGradH dx (zgetD t.vals ((i-1) * t.ny + j)) (zgetD t.vals (i * t.ny + j))
      (zgetD t.dfdx ((i-1) * t.ny + j) * dxgrid) (zgetD t.dfdx (i * t.ny + j) * dxgrid)
  let xder0 := oneDGradH dx (zgetD t.dfdy ((i-1) * t.ny + j - 1)) (zgetD t.dfdy (i * t.ny + j - 1))
      (zgetD t.d2fdxdy ((i-1) * t.ny + j - 1) * dxgrid) (zgetD t.d2fdxdy (i * t.ny + j - 1) * dxgrid)
  let xder1 := oneDGradH dx (zgetD t.dfdy ((i-1) * t.ny + j)) (zgetD t.dfdy (i * t.ny + j))
      (zgetD t.d2fdxdy ((i-1) * t.ny + j) * dxgrid) (zgetD t.d2fdxdy (i * t.ny + j) * dxgrid)
  let dfdx := oneDSplineH dy xval0 xval1 (xder0 * dygrid) (xder1 * dygrid) / dxgrid
  let yval0 := oneDGradH dy (zgetD t.vals ((i-1) * t.ny + j - 1)) (zgetD t.vals ((i-1) * t.ny + j))
      (zgetD t.dfdy ((i-1) * t.ny + j - 1) * dygrid) (zgetD t.dfdy ((i-1) * t.ny + j) * dygrid)
  let yval1 := oneDGradH dy (zgetD t.vals (i * t.ny + j - 1)) (zgetD t.vals (i * t.ny + j))
      (zgetD t.dfdy (i * t.ny + j - 1) * dygrid) (zgetD t.dfdy (i * t.ny + j) * dygrid)
  let yder0 := oneDGradH dy (zgetD t.dfdx ((i-1) * t.ny + j - 1)) (zgetD t.dfdx ((i-1) * t.ny + j))
      (zgetD t.d2fdxdy ((i-1) * t.ny + j - 1) * dygrid) (zgetD t.d2fdxdy ((i-1) * t.ny + j) * dygrid)
  let yder1 := oneDGradH dy (zgetD t.dfdx (i * t.ny + j - 1)) (zgetD t.dfdx (i * t.ny + j))
      (zgetD t.d2fdxdy (i * t.ny + j - 1) * dygrid) (zgetD t.d2fdxdy (i * t.ny + j) * dygrid)
  let dfdy := oneDSplineH dx yval0 yval1 (yder0 * dxgrid) (yder1 * dxgrid) / dygrid
  (dfdx, dfdy)

/-- `T2DCubicConvolution::oneDSpline` (Catmull-Rom-style stencil). -/
def oneDSplineCC (x fm1 f0 f1 f2 : ℚ) : ℚ :=
  let a := -fm1 + 3 * (f0 - f1) + f2
  let b := 2 * fm1 - 5 * f0 + 4 * f1 - f2
  let c := f1 - fm1
  let d := 2 * f0
  (1/2) * (d + x * (c + x * (b + x * a)))

/-- `T2DCubicConvolution::oneDGrad`. -/
def oneDGradCC (x fm1 f0 f1 f2 : ℚ) : ℚ :=
  let a := -fm1 + 3 * (f0 - f1) + f2
  let b := 2 * fm1 - 5 * f0 + 4 * f1 - f2
  let c := f1 - fm1
  (1/2) * (c + x * (2 * b + x * 3 * a))

/-- `T2DCubicConvolution::interp`. -/
def t2dCubicConvInterp (t : Table2D) (x y : ℚ) (i j : ℤ) : ℚ :=
  let dxgrid := zgetD t.xargs.vec i - zgetD t.xargs.vec (i-1)
  let dygrid := zgetD t.yargs.vec j - zgetD t.yargs.vec (j-1)
  let dx := (x - zgetD t.xargs.vec (i-1)) / dxgrid
  let dy := (y - zgetD t.yargs.vec (j-1)) / dygrid
  let valm1 := oneDSplineCC dx (zgetD t.vals ((i-2) * t.ny + j - 2)) (zgetD t.vals ((i-1) * t.ny + j - 2))
      (zgetD t.vals (i * t.ny + j - 2)) (zgetD t.vals ((i+1) * t.ny + j - 2))
  let val0 := oneDSplineCC dx (zgetD t.vals ((i-2) * t.ny + j - 1)) (zgetD t.vals ((i-1) * t.ny + j - 1))
      (zgetD t.vals (i * t.ny + j - 1)) (zgetD t.vals ((i+1) * t.ny + j - 1))
  let val1 := oneDSplineCC dx (zgetD t.vals ((i-2) * t.ny + j)) (zgetD t.vals ((i-1) * t.ny + j))
      (zgetD t.vals (i * t.ny + j)) (zgetD t.vals ((i+1) * t.ny + j))
  let val2 := oneDSplineCC dx (zgetD t.vals ((i-2) * t.ny + j + 1)) (zgetD t.vals ((i-1) * t.ny + j + 1))
      (zgetD t.vals (i * t.ny + j + 1)) (zgetD t.vals ((i+1) * t.ny + j + 1))
  oneDSplineCC dy valm1 val0 val1 val2

/-- `T2DCubicConvolution::grad`: fully implemented in the source
(lines 619-638); it computes the separable derivative, it does not throw. -/
def t2dCubicConvGrad (t : Table2D) (x y : ℚ) (i j : ℤ) : ℚ × ℚ :=
  let dxgrid := zgetD t.xargs.vec i - zgetD t.xargs.vec (i-1)
  let dygrid := zgetD t.yargs.vec j - zgetD t.yargs.vec (j-1)
  let dx := (x - zgetD t.xargs.vec (i-1)) / dxgrid
  let dy := (y - zgetD t.yargs.vec (j-1)) / dygrid
  let xvalm1 := oneDGradCC dx (zgetD t.vals ((i-2) * t.ny + j - 2)) (zgetD t.vals ((i-1) * t.ny + j - 2))
      (zgetD t.vals (i * t.ny + j - 2)) (zgetD t.vals ((i+1) * t.ny + j - 2))
  let xval0 := oneDGradCC dx (zgetD t.vals ((i-2) * t.ny + j - 1)) (zgetD t.vals ((i-1) * t.ny + j - 1))
      (zgetD t.vals (i * t.ny + j - 1)) (zgetD t.vals ((i+1) * t.ny + j - 1))
  let xval1 := oneDGradCC dx (zgetD t.vals ((i-2) * t.ny + j)) (zgetD t.vals ((i-1) * t.ny + j))
      (zgetD t.vals (i * t.ny + j)) (zgetD t.vals ((i+1) * t.ny + j))
  let xval2 := oneDGradCC dx (zgetD t.vals ((i-2) * t.ny + j + 1)) (zgetD t.vals ((i-1) * t.ny + j + 1))
      (zgetD t.vals (i * t.ny + j + 1)) (zgetD t.vals ((i+1) * t.ny + j + 1))
  let dfdx := oneDSplineCC dy xvalm1 xval0 xval1 xval2 / dxgrid
  let yvalm1 := oneDGradCC dy (zgetD t.vals ((i-2) * t.ny + j - 2)) (zgetD t.vals ((i-2) * t.ny + j - 1))
      (zgetD t.vals ((i-2) * t.ny + j)) (zgetD t.vals ((i-2) * t.ny + j + 1))
  let yval0 := oneDGradCC dy (zgetD t.vals ((i-1) * t.ny + j - 2)) (zgetD t.vals ((i-1) * t.ny + j - 1))
      (zgetD t.vals ((i-1) * t.ny + j)) (zgetD t.vals ((i-1) * t.ny + j + 1))
  let yval1 := oneDGradCC dy (zgetD t.vals (i * t.ny + j - 2)) (zgetD t.vals (i * t.ny + j - 1))
      (zgetD t.vals (i * t.ny + j)) (zgetD t.vals (i * t.ny + j + 1))
  let yval2 := oneDGradCC dy (zgetD t.vals ((i+1) * t.ny + j - 2)) (zgetD t.vals ((i+1) * t.ny + j - 1))
      (zgetD t.vals ((i+1) * t.ny + j)) (zgetD t.vals ((i+1) * t.ny + j + 1))
  let dfdy := oneDSplineCC dx yvalm1 yval0 yval1 yval2 / dygrid
  (dfdx, dfdy)

/-- `dx` as computed at the top of `T2DInterpolant2D::interp`. -/
def dxOf (args : Array ℚ) (q : ℚ) (i : ℤ) : ℚ :=
  (q - zgetD args (i-1)) / (zgetD args i - zgetD args (i-1))

/-- The clamped x-support window `(ixMin, ixMax)` of
`T2DInterpolant2D::interp` (node-collapse branch included). -/
def xWindow (kern : Interpolant) (nx : ℤ) (i : ℤ) (dx : ℚ) : ℤ × ℤ :=
  let mm : ℤ × ℤ :=
    if kern.isExactAtNodes ∧ |dx| < tenEps then (i-1, i-1)
    else (i-1 + qceil (dx - kern.xrange), i-1 + qfloor (dx + kern.xrange))
  (max mm.1 0, min mm.2 (nx - 1))

/-- `T2DInterpolant2D::interp`: clamped separable-kernel summation; an empty
clamped window along either axis short-circuits to 0.0. -/
def t2dInterp2DInterp (t : Table2D) (x y : ℚ) (i j : ℤ) : ℚ :=
  let dx := dxOf t.xargs.vec x i
  let dy := dxOf t.yargs.vec y j
  let xw := xWindow t.interp2d t.nx i dx
  if xw.1 > xw.2 then 0
  else
    let yw := xWindow t.interp2d t.ny j dy
    if yw.1 > yw.2 then 0
    else
      (List.range (yw.2 + 1 - yw.1).toNat).foldl (fun s ky =>
        (List.range (xw.2 + 1 - xw.1).toNat).foldl (fun s2 kx =>
          s2 + zgetD t.vals ((xw.1 + kx) * t.ny + (yw.1 + ky)) *
            t.interp2d.xval ((i:ℚ) - 1 + dx - ((xw.1 + kx : ℤ) : ℚ))
              ((j:ℚ) - 1 + dy - ((yw.1 + ky : ℤ) : ℚ))) s) 0

/-- The value dispatch `static_cast<const T*>(this)->interp(x, y, i, j)`. -/
def interp2 (t : Table2D) (x y : ℚ) (i j : ℤ) : ℚ :=
  match t.iType with
  | .floor => t2dFloorInterp t x y i j
  | .ceil => t2dCeilInterp t x y i j
  | .nearest => t2dNearestInterp t x y i j
  | .linear => t2dLinearInterp t x y i j
  | .cubic => t2dCubicInterp t x y i j
  | .cubicConvolve => t2dCubicConvInterp t x y i j
  | .interpolant2d => t2dInterp2DInterp t x y i j
  | .other _ => 0

/-- `Table2D::lookup` through `T2DCRTP::lookup`: resolve both bracket
indices (threading both hints), then dispatch. -/
def t2dLookup (t : Table2D) (lx ly : ℤ) (x y : ℚ) : Option (ℚ × ℤ × ℤ) :=
  match t.xargs.upperIndex lx x with
  | none => none
  | some (i, lx2) =>
    match t.yargs.upperIndex ly y with
    | none => none
    | some (j, ly2) => some (interp2 t x y i j, lx2, ly2)

/-- `Table2D::gradient` through `T2DCRTP::gradient`: resolve both bracket
indices, then dispatch to the subclass `grad`, which for the floor, ceil,
nearest and interpolant2d modes throws `std::runtime_error`. -/
def t2dGradient (t : Table2D) (lx ly : ℤ) (x y : ℚ) : Except CError ((ℚ × ℚ) × ℤ × ℤ) :=
  match t.xargs.upperIndex lx x with
  | none => Except.error CError.ub
  | some (i, lx2) =>
    match t.yargs.upperIndex ly y with
    | none => Except.error CError.ub
    | some (j, ly2) =>
      match t.iType with
      | .floor => Except.error (CError.runtimeError ("gradient not implemented for floor interp"))
      | .ceil => Except.error (CError.runtimeError ("gradient not implemented for ceil interp"))
      | .nearest => Except.error (CError.runtimeError ("gradient not implemented for nearest interp"))
      | .interpolant2d => Except.error (CError.runtimeError ("gradient not implemented for Interp interp"))
      | .linear => Except.ok (t2dLinearGrad t x y i j, lx2, ly2)
      | .cubic => Except.ok (t2dCubicGrad t x y i j, lx2, ly2)
      | .cubicConvolve => Except.ok (t2dCubicConvGrad t x y i j, lx2, ly2)
      | .other _ => Except.error CError.ub

/-- `Table2D::gradientMany`: the batched loop, threading the two hints
through the per-point `upperIndex` calls. -/
def t2dGradientMany (t : Table2D) (lx ly : ℤ) : List (ℚ × ℚ) → Except CError (List (ℚ × ℚ) × ℤ × ℤ)
  | [] => Except.ok ([], lx, ly)
  | (x, y) :: rest =>
    match t2dGradient t lx ly x y with
    | .error e => Except.error e
    | .ok (g, lx2, ly2) =>
      match t2dGradientMany t lx2 ly2 rest with
      | .error e => Except.error e
      | .ok (gs, lx3, ly3) => Except.ok (g :: gs, lx3, ly3)

/-- `b'_i`: the modified diagonal produced by the forward elimination of the
Thomas algorithm (the successive values of `bb` in `setupSpline`). -/
def bp (x : Array ℚ) : ℕ → ℚ
  | 0 => 1
  | 1 => 2 * (x.getD 2 0 - x.getD 0 0)
  | k+2 => 2 * (x.getD (k+3) 0 - x.getD (k+1) 0) - hseq x (k+1) * (hseq x (k+1) / bp x (k+1))

/-- `w_i`: the modified right-hand side after forward elimination (the value
`_y2[i]` holds right after the division by `bb` in iteration `i`). -/
def wseq (x y : Array ℚ) : ℕ → ℚ
  | 0 => 0
  | k+1 => (splineRHS x y (k+1) - hseq x k * wseq x y k) / bp x (k+1)

/-- `γ_i = h_i / b'_i`: the stored multiplier `c[i-1]` (0 at index 0). -/
def gam0 (x : Array ℚ) : ℕ → ℚ
  | 0 => 0
  | k+1 => hseq x (k+1) / bp x (k+1)

/-- Back substitution read off from the top index downwards:
`zrev k` is the solution at index `m - k`. -/
def zrev (x y : Array ℚ) (m : ℕ) : ℕ → ℚ
  | 0 => wseq x y m
  | k+1 => if m ≤ k+1 then 0 else wseq x y (m-(k+1)) - gam0 x (m-(k+1)) * zrev x y m k

/-- The solution of the tridiagonal system delivered by back substitution,
with the natural-boundary zeros at index 0 and above `m`. -/
def zsol (x y : Array ℚ) (m j : ℕ) : ℚ :=
  if j = 0 ∨ m < j then 0 else zrev x y m (m - j)

/-- A concrete 3×3 kernel-mode table: uniform axes 0..2, all values one, and
a kernel of support radius 1/4 that is not exact at nodes, so that interior
queries can land between nodes with an empty clamped support window. -/
def c10Table : Table2D :=
  ⟨⟨#[0, 1, 2]⟩, ⟨#[0, 1, 2]⟩, #[1, 1, 1, 1, 1, 1, 1, 1, 1], 3, 3,
   Interp2.interpolant2d, #[], #[], #[], ⟨1/4, false, fun _ _ => 1⟩⟩

/-! ### Basic facts about the access helpers -/

theorem zgetD_of_nonneg {A : Array ℚ} {k : ℤ} (h : 0 ≤ k) : zgetD A k = A.getD k.toNat 0 := by
  simp [zgetD, not_lt.mpr h]

theorem zget?_eq_some {A : Array ℚ} {k : ℤ} (h0 : 0 ≤ k) (h1 : k < (A.size : ℤ)) :
    zget? A k = some (zgetD A k) := by
  have hk : k.toNat < A.size := by omega
  simp [zget?, zgetD, not_lt.mpr h0, Array.getElem?_eq_getElem hk, Array.getD, hk]

theorem zget?_some_elim {A : Array ℚ} {k : ℤ} {q : ℚ} (h : zget? A k = some q) :
    0 ≤ k ∧ k < (A.size : ℤ) ∧ q = zgetD A k := by
  by_cases hk : k < 0
  · simp [zget?, hk] at h
  · push_neg at hk
    by_cases hs : k.toNat < A.size
    · rw [zget?, if_neg (not_lt.mpr hk), Array.getElem?_eq_getElem hs] at h
      refine ⟨hk, by omega, ?_⟩
      have hq := (Option.some.injEq _ _).mp h
      simp [zgetD, if_neg (not_lt.mpr hk), Array.getD, hs, ← hq]
    · rw [zget?, if_neg (not_lt.mpr hk),
        Array.getElem?_len_le A (Nat.le_of_not_lt hs)] at h
      cases h

theorem getD_setD_self {A : Array ℚ} {i : ℕ} (h : i < A.size) (v : ℚ) :
    (A.setD i v).getD i 0 = v := by
  simp [Array.setD, Array.getD, h, Array.get_set]

theorem getD_setD_ne {A : Array ℚ} {i j : ℕ} (hne : i ≠ j) (v : ℚ) :
    (A.setD i v).getD j 0 = A.getD j 0 := by
  by_cases hi : i < A.size
  · by_cases hj : j < A.size
    · simp [Array.setD, Array.getD, hi, hj, Array.get_set, hne]
    · simp [Array.setD, Array.getD, hi, hj]
  · simp [Array.setD, hi]

/-! ### The strictly-increasing contract -/

theorem sInc_step {A : Array ℚ} (h : strictIncrB A = true) {i : ℕ} (hi : i + 1 < A.size) :
    A.getD i 0 < A.getD (i+1) 0 := by
  have := List.all_eq_true.mp h i (List.mem_range.mpr (by omega))
  simpa using this

theorem sInc_lt {A : Array ℚ} (h : strictIncrB A = true) {i j : ℕ} (hij : i < j)
    (hj : j < A.size) : A.getD i 0 < A.getD j 0 := by
  induction j with
  | zero => omega
  | succ k ih =>
    rcases Nat.lt_succ_iff_lt_or_eq.mp hij with hlt | heq
    · exact lt_trans (ih hlt (by omega)) (sInc_step h hj)
    · subst heq; exact sInc_step h hj

theorem sInc_le {A : Array ℚ} (h : strictIncrB A = true) {i j : ℕ} (hij : i ≤ j)
    (hj : j < A.size) : A.getD i 0 ≤ A.getD j 0 := by
  rcases eq_or_lt_of_le hij with heq | hlt
  · rw [heq]
  · exact le_of_lt (sInc_lt h hlt hj)

theorem sInc_zlt {A : Array ℚ} (h : strictIncrB A = true) {i j : ℤ} (h0 : 0 ≤ i)
    (hij : i < j) (hj : j < (A.size : ℤ)) : zgetD A i < zgetD A j := by
  rw [zgetD_of_nonneg h0, zgetD_of_nonneg (by omega)]
  exact sInc_lt h (by omega) (by omega)

theorem sInc_zle {A : Array ℚ} (h : strictIncrB A = true) {i j : ℤ} (h0 : 0 ≤ i)
    (hij : i ≤ j) (hj : j < (A.size : ℤ)) : zgetD A i ≤ zgetD A j := by
  rcases eq_or_lt_of_le hij with heq | hlt
  · rw [heq]
  · exact le_of_lt (sInc_zlt h h0 hlt hj)

theorem front_eq_zget (v : ArgVec) : v.front = zgetD v.vec 0 := by
  simp [ArgVec.front, zgetD]

theorem back_eq_zget (v : ArgVec) (hn : 1 ≤ v.vec.size) :
    v.back = zgetD v.vec ((v.vec.size : ℤ) - 1) := by
  rw [ArgVec.back, zgetD, if_neg (by omega)]
  congr 1
  omega

/-! ### The four search loops -/

theorem upWhile_spec {A : Array ℚ} {a : ℚ} {t : ℤ} (ht : t < (A.size : ℤ))
    (hat : a ≤ zgetD A t) :
    ∀ (fuel : ℕ) (i : ℤ), 0 ≤ i → i ≤ t → (t - i).toNat < fuel →
    ∃ j, upWhile A a fuel i = some j ∧ i ≤ j ∧ j ≤ t ∧ a ≤ zgetD A j ∧
      ∀ k, i ≤ k → k < j → zgetD A k < a := by
  intro fuel
  induction fuel with
  | zero => intro i _ _ hf; exact absurd hf (by omega)
  | succ f ih =>
    intro i h0 hit hf
    have hi : i < (A.size : ℤ) := lt_of_le_of_lt hit ht
    rw [upWhile, zget?_eq_some h0 hi]
    by_cases hgt : a > zgetD A i
    · have hit' : i < t := by
        rcases lt_or_eq_of_le hit with hlt | heq
        · exact hlt
        · rw [heq] at hgt; exact absurd hat (not_le.mpr hgt)
      simp only [if_pos hgt]
      obtain ⟨j, hj, h1, h2, h3, h4⟩ := ih (i+1) (by omega) (by omega) (by omega)
      refine ⟨j, hj, by omega, h2, h3, fun k hk1 hk2 => ?_⟩
      rcases eq_or_lt_of_le hk1 with heq | hlt
      · rw [← heq]; exact hgt
      · exact h4 k (by omega) hk2
    · simp only [if_neg hgt]
      exact ⟨i, rfl, le_refl i, hit, not_lt.mp hgt, fun k hk1 hk2 => absurd hk2 (by omega)⟩

theorem downWhile_spec {A : Array ℚ} {a : ℚ} (hfront : zgetD A 0 ≤ a) :
    ∀ (fuel : ℕ) (i : ℤ), 1 ≤ i → i ≤ (A.size : ℤ) → i.toNat ≤ fuel →
    ∃ j, downWhile A a fuel i = some j ∧ 1 ≤ j ∧ j ≤ i ∧ zgetD A (j-1) ≤ a ∧
      (j < i → a < zgetD A j) := by
  intro fuel
  induction fuel with
  | zero => intro i h1 _ hf; exact absurd hf (by omega)
  | succ f ih =>
    intro i h1 hsz hf
    rw [downWhile, zget?_eq_some (by omega) (by omega)]
    by_cases hlt : a < zgetD A (i-1)
    · have h2 : 2 ≤ i := by
        by_contra hcon
        have hi1 : i = 1 := by omega
        rw [hi1] at hlt
        norm_num at hlt
        exact absurd hfront (not_le.mpr hlt)
      simp only [if_pos hlt]
      obtain ⟨j, hj, hj1, hj2, hj3, hj4⟩ := ih (i-1) (by omega) (by omega) (by omega)
      refine ⟨j, hj, hj1, by omega, hj3, fun hji => ?_⟩
      rcases eq_or_lt_of_le hj2 with heq | hlt2
      · rw [heq]; exact hlt
      · exact hj4 hlt2
    · simp only [if_neg hlt]
      exact ⟨i, rfl, h1, le_refl i, not_lt.mp hlt, fun hcon => absurd hcon (by omega)⟩

theorem upperBoundAux_spec {A : Array ℚ} {a : ℚ} :
    ∀ (cnt : ℕ) (lo : ℤ), 0 ≤ lo →
    (∃ k, lo ≤ k ∧ k < lo + cnt ∧ k < (A.size : ℤ) ∧ a < zgetD A k) →
    ∃ p, upperBoundAux A a cnt lo = some p ∧ lo ≤ p ∧ p < lo + cnt ∧ p < (A.size : ℤ) ∧
      a < zgetD A p ∧ ∀ k, lo ≤ k → k < p → zgetD A k ≤ a := by
  intro cnt
  induction cnt with
  | zero =>
    intro lo _ hw
    obtain ⟨k, hk1, hk2, -, -⟩ := hw
    exact absurd hk2 (by omega)
  | succ c ih =>
    intro lo h0 hw
    obtain ⟨k, hk1, hk2, hk3, hk4⟩ := hw
    have hlo : lo < (A.size : ℤ) := lt_of_le_of_lt hk1 hk3
    rw [upperBoundAux, zget?_eq_some h0 hlo]
    by_cases hcase : a < zgetD A lo
    · simp only [if_pos hcase]
      exact ⟨lo, rfl, le_refl lo, by omega, hlo, hcase,
        fun k' hk1' hk2' => absurd hk2' (by omega)⟩
    · simp only [if_neg hcase]
      have hkne : k ≠ lo := by
        intro hcon
        rw [hcon] at hk4
        exact hcase hk4
      obtain ⟨p, hp, hp1, hp2, hp3, hp4, hp5⟩ :=
        ih (lo+1) (by omega) ⟨k, by omega, by omega, hk3, hk4⟩
      refine ⟨p, hp, by omega, by omega, hp3, hp4, fun k' hk1' hk2' => ?_⟩
      rcases eq_or_lt_of_le hk1' with heq | hlt2
      · rw [← heq]; exact not_lt.mp hcase
      · exact hp5 k' (by omega) hk2'

theorem lowerBoundAux_spec {A : Array ℚ} {a : ℚ} :
    ∀ (cnt : ℕ) (lo : ℤ), 0 ≤ lo →
    (∃ k, lo ≤ k ∧ k < lo + cnt ∧ k < (A.size : ℤ) ∧ a ≤ zgetD A k) →
    ∃ p, lowerBoundAux A a cnt lo = some p ∧ lo ≤ p ∧ p < lo + cnt ∧ p < (A.size : ℤ) ∧
      a ≤ zgetD A p ∧ ∀ k, lo ≤ k → k < p → zgetD A k < a := by
  intro cnt
  induction cnt with
  | zero =>
    intro lo _ hw
    obtain ⟨k, hk1, hk2, -, -⟩ := hw
    exact absurd hk2 (by omega)
  | succ c ih =>
    intro lo h0 hw
    obtain ⟨k, hk1, hk2, hk3, hk4⟩ := hw
    have hlo : lo < (A.size : ℤ) := lt_of_le_of_lt hk1 hk3
    rw [lowerBoundAux, zget?_eq_some h0 hlo]
    by_cases hcase : zgetD A lo < a
    · simp only [if_pos hcase]
      have hkne : k ≠ lo := by
        intro hcon
        rw [hcon] at hk4
        exact absurd hcase (not_lt.mpr hk4)
      obtain ⟨p, hp, hp1, hp2, hp3, hp4, hp5⟩ :=
        ih (lo+1) (by omega) ⟨k, by omega, by omega, hk3, hk4⟩
      refine ⟨p, hp, by omega, by omega, hp3, hp4, fun k' hk1' hk2' => ?_⟩
      rcases eq_or_lt_of_le hk1' with heq | hlt2
      · rw [← heq]; exact hcase
      · exact hp5 k' (by omega) hk2'
    · simp only [if_neg hcase]
      exact ⟨lo, rfl, le_refl lo, by omega, hlo, not_lt.mp hcase,
        fun k' hk1' hk2' => absurd hk2' (by omega)⟩

/-! ### The bracket search -/

theorem qceil_eq (q : ℚ) : qceil q = ⌈q⌉ := by
  have h1 : Rat.floor (-q) = ⌊-q⌋ := by
    rw [Rat.floor_def' (-q), Rat.floor_def]
  rw [qceil, h1, Int.floor_neg, neg_neg]

theorem front_lt_back {v : ArgVec} (hs : strictIncrB v.vec = true) (hn : 2 ≤ v.vec.size) :
    v.front < v.back := by
  have hnz : (2:ℤ) ≤ (v.vec.size : ℤ) := by exact_mod_cast hn
  rw [front_eq_zget, back_eq_zget v (by omega)]
  exact sInc_zlt hs (le_refl 0) (by omega) (by omega)

theorem da_pos {v : ArgVec} (hs : strictIncrB v.vec = true) (hn : 2 ≤ v.vec.size) :
    0 < v.da := by
  have h2 : (2:ℚ) ≤ (v.vec.size : ℚ) := by exact_mod_cast hn
  exact div_pos (by linarith [front_lt_back hs hn]) (by linarith)

theorem uniStart_bounds {v : ArgVec} (hs : strictIncrB v.vec = true) (hn : 2 ≤ v.vec.size)
    {a : ℚ} (hlo : v.front ≤ a) (hhi : a ≤ v.back) :
    1 ≤ v.uniStart a ∧ v.uniStart a ≤ (v.vec.size : ℤ) - 1 := by
  have hnz : (2:ℤ) ≤ (v.vec.size : ℤ) := by exact_mod_cast hn
  have h2 : (2:ℚ) ≤ (v.vec.size : ℚ) := by exact_mod_cast hn
  have hda := da_pos hs hn
  have hq0 : 0 ≤ (a - v.front) / v.da := div_nonneg (by linarith) (le_of_lt hda)
  have hden : (0:ℚ) < (v.vec.size : ℚ) - 1 := by linarith
  have hprod : ((v.vec.size : ℚ) - 1) * v.da = v.back - v.front := by
    rw [ArgVec.da, mul_comm, div_mul_cancel₀ _ (ne_of_gt hden)]
  have hqub : (a - v.front) / v.da ≤ (v.vec.size : ℚ) - 1 := by
    rw [div_le_iff₀ hda]
    linarith
  have hc0 : 0 ≤ qceil ((a - v.front) / v.da) := by
    rw [qceil_eq]
    exact Int.ceil_nonneg hq0
  have hcub : qceil ((a - v.front) / v.da) ≤ (v.vec.size : ℤ) - 1 := by
    rw [qceil_eq]
    refine Int.ceil_le.mpr ?_
    push_cast
    exact hqub
  simp only [ArgVec.uniStart, ArgVec.n]
  split_ifs <;> omega

theorem upperIndex_spec {v : ArgVec} (hs : strictIncrB v.vec = true) (hn : 2 ≤ v.vec.size)
    {last : ℤ} (hl1 : 1 ≤ last) (hl2 : last ≤ v.n - 1) (a : ℚ) :
    ∃ i last2, v.upperIndex last a = some (i, last2) ∧ 1 ≤ i ∧ i ≤ v.n - 1 ∧
      1 ≤ last2 ∧ last2 ≤ v.n - 1 ∧
      (v.front ≤ a → a ≤ v.back → zgetD v.vec (i-1) ≤ a ∧ a ≤ zgetD v.vec i) := by
  have hnz : (2:ℤ) ≤ (v.vec.size : ℤ) := by exact_mod_cast hn
  have hvn : v.n = (v.vec.size : ℤ) := rfl
  rw [hvn] at hl2 ⊢
  rw [ArgVec.upperIndex]
  by_cases h1 : a < v.front
  · rw [if_pos h1]
    exact ⟨1, last, rfl, le_refl 1, by omega, hl1, hl2,
      fun hge _ => absurd h1 (not_lt.mpr hge)⟩
  rw [if_neg h1]
  push_neg at h1
  by_cases h2 : a > v.back
  · rw [if_pos h2, hvn]
    exact ⟨(v.vec.size : ℤ) - 1, last, rfl, by omega, le_refl _, hl1, hl2,
      fun _ hle => absurd h2 (not_lt.mpr hle)⟩
  rw [if_neg h2]
  push_neg at h2
  have hfront0 : zgetD v.vec 0 ≤ a := by rw [← front_eq_zget]; exact h1
  have hbackN : a ≤ zgetD v.vec ((v.vec.size : ℤ) - 1) := by
    rw [← back_eq_zget v (by omega)]
    exact h2
  by_cases heqs : v.equalSpaced
  · rw [if_pos heqs]
    obtain ⟨hu1, hu2⟩ := uniStart_bounds hs hn h1 h2
    obtain ⟨i3, hup, hup1, hup2, hup3, hup4⟩ :=
      upWhile_spec (t := (v.vec.size : ℤ) - 1) (by omega) hbackN
        (v.vec.size + 1) (v.uniStart a) (by omega) hu2 (by omega)
    obtain ⟨i4, hdn, hdn1, hdn2, hdn3, hdn4⟩ :=
      downWhile_spec hfront0 (v.vec.size + 1) i3 (by omega) (by omega) (by omega)
    refine ⟨i4, last, ?_, hdn1, by omega, hl1, hl2, fun _ _ => ⟨hdn3, ?_⟩⟩
    · simp only [hup, hdn]
    · rcases eq_or_lt_of_le hdn2 with heq | hlt
      · rw [heq]; exact hup3
      · exact le_of_lt (hdn4 hlt)
  · rw [if_neg heqs]
    have hr1 : zget? v.vec (last - 1) = some (zgetD v.vec (last - 1)) :=
      zget?_eq_some (by omega) (by omega)
    by_cases hgl : a < zgetD v.vec (last - 1)
    · have hlast2 : 2 ≤ last := by
        by_contra hcon
        have : last = 1 := by omega
        rw [this] at hgl
        norm_num at hgl
        exact absurd hfront0 (not_le.mpr hgl)
      have hr2 : zget? v.vec (last - 2) = some (zgetD v.vec (last - 2)) :=
        zget?_eq_some (by omega) (by omega)
      by_cases hgll : a ≥ zgetD v.vec (last - 2)
      · refine ⟨last - 1, last - 1, ?_, by omega, by omega, by omega, by omega,
          fun _ _ => ⟨?_, le_of_lt hgl⟩⟩
        · simp only [hr1, hr2, if_pos hgl, if_pos hgll]
        · have : last - 1 - 1 = last - 2 := by omega
          rw [this]
          exact hgll
      · push_neg at hgll
        obtain ⟨p, hpeq, hp0, hp1, hp2, hp3, hp4⟩ :=
          upperBoundAux_spec (last - 1).toNat 0 (le_refl 0)
            ⟨last - 2, by omega, by omega, by omega, hgll⟩
        have hpge1 : 1 ≤ p := by
          by_contra hcon
          have hp00 : p = 0 := by omega
          rw [hp00] at hp3
          exact absurd hfront0 (not_le.mpr hp3)
        refine ⟨p, p, ?_, hpge1, by omega, hpge1, by omega,
          fun _ _ => ⟨hp4 (p-1) (by omega) (by omega), le_of_lt hp3⟩⟩
        simp only [hr1, hr2, if_pos hgl, if_neg (not_le.mpr hgll), hpeq]
    · have hr3 : zget? v.vec last = some (zgetD v.vec last) :=
        zget?_eq_some (by omega) (by omega)
      by_cases hgr : a > zgetD v.vec last
      · have hlastn : last ≤ (v.vec.size : ℤ) - 2 := by
          by_contra hcon
          have : last = (v.vec.size : ℤ) - 1 := by omega
          rw [this] at hgr
          exact absurd hbackN (not_le.mpr hgr)
        have hr4 : zget? v.vec (last + 1) = some (zgetD v.vec (last + 1)) :=
          zget?_eq_some (by omega) (by omega)
        by_cases hgrr : a ≤ zgetD v.vec (last + 1)
        · refine ⟨last + 1, last + 1, ?_, by omega, by omega, by omega, by omega,
            fun _ _ => ⟨?_, hgrr⟩⟩
          · simp only [hr1, hr3, hr4, if_neg hgl, if_pos hgr, if_pos hgrr]
          · have : last + 1 - 1 = last := by omega
            rw [this]
            exact le_of_lt hgr
        · push_neg at hgrr
          obtain ⟨p, hpeq, hp0, hp1, hp2, hp3, hp4⟩ :=
            lowerBoundAux_spec (v.n - (last + 1)).toNat (last + 1) (by omega)
              ⟨(v.vec.size : ℤ) - 1, by omega, by rw [hvn]; omega, by omega, hbackN⟩
          have hpl : last + 2 ≤ p := by
            by_contra hcon
            have : p = last + 1 := by omega
            rw [this] at hp3
            exact absurd hp3 (not_le.mpr hgrr)
          refine ⟨p, p, ?_, by omega, by omega, by omega, by omega,
            fun _ _ => ⟨le_of_lt (hp4 (p-1) (by omega) (by omega)), hp3⟩⟩
          simp only [hr1, hr3, hr4, if_neg hgl, if_pos hgr, if_neg (not_le.mpr hgrr), hpeq]
      · refine ⟨last, last, ?_, hl1, hl2, hl1, hl2,
          fun _ _ => ⟨not_lt.mp hgl, not_lt.mp hgr⟩⟩
        simp only [hr1, hr3, if_neg hgl, if_neg hgr]

theorem zgetD_mem_toList {A : Array ℚ} {k : ℤ} (h0 : 0 ≤ k) (h1 : k < (A.size : ℤ)) :
    zgetD A k ∈ A.toList := by
  have hk : k.toNat < A.size := by omega
  rw [zgetD_of_nonneg h0]
  have hget : A.getD k.toNat 0 = A[k.toNat] := by simp [Array.getD, hk]
  rw [hget]
  exact Array.getElem_mem_toList A hk

theorem bracket_unique {A : Array ℚ} (hs : strictIncrB A = true) {a : ℚ} {i i' : ℤ}
    (hi1 : 1 ≤ i) (hi2 : i ≤ (A.size : ℤ) - 1) (hb1 : zgetD A (i-1) ≤ a) (hb2 : a ≤ zgetD A i)
    (hj1 : 1 ≤ i') (hj2 : i' ≤ (A.size : ℤ) - 1) (hc1 : zgetD A (i'-1) ≤ a)
    (hc2 : a ≤ zgetD A i') (hnn : a ∉ A.toList) : i = i' := by
  by_contra hne
  rcases lt_or_gt_of_ne hne with hlt | hgt
  · have h1 : zgetD A i ≤ zgetD A (i'-1) := sInc_zle hs (by omega) (by omega) (by omega)
    have heq : a = zgetD A i := le_antisymm hb2 (le_trans h1 hc1)
    exact hnn (heq ▸ zgetD_mem_toList (by omega) (by omega))
  · have h1 : zgetD A i' ≤ zgetD A (i-1) := sInc_zle hs (by omega) (by omega) (by omega)
    have heq : a = zgetD A i' := le_antisymm hc2 (le_trans h1 hb1)
    exact hnn (heq ▸ zgetD_mem_toList (by omega) (by omega))

/-- C1 (amended): for a strictly increasing backing array with `n ≥ 2` and a
query `args[0] ≤ a ≤ args[n-1]`, `upperIndex` succeeds from every valid hint
and returns an index `i` with `1 ≤ i ≤ n-1` and `args[i-1] ≤ a ≤ args[i]`,
on the uniform-arithmetic path and the cached-binary-search path alike; and
whenever `a` is not exactly equal to a grid node, the returned index is the
same regardless of the hint left by prior calls.  (As frozen, the claim also
asserted hint-independence for `a` exactly at an interior node, which is
false: see the counterexample.) -/
theorem claim_C1_upperIndex_bracket {v : ArgVec} (hs : strictIncrB v.vec = true)
    (hn : 2 ≤ v.vec.size) {a : ℚ} (hlo : v.front ≤ a) (hhi : a ≤ v.back) :
    (∀ last : ℤ, 1 ≤ last → last ≤ v.n - 1 →
      ∃ i last2, v.upperIndex last a = some (i, last2) ∧ 1 ≤ i ∧ i ≤ v.n - 1 ∧
        zgetD v.vec (i-1) ≤ a ∧ a ≤ zgetD v.vec i) ∧
    (a ∉ v.vec.toList →
      ∀ last1 last2 : ℤ, 1 ≤ last1 → last1 ≤ v.n - 1 → 1 ≤ last2 → last2 ≤ v.n - 1 →
        (v.upperIndex last1 a).map Prod.fst = (v.upperIndex last2 a).map Prod.fst) := by
  constructor
  · intro last h1 h2
    obtain ⟨i, last2, heq, hi1, hi2, -, -, hbr⟩ := upperIndex_spec hs hn h1 h2 a
    exact ⟨i, last2, heq, hi1, hi2, (hbr hlo hhi).1, (hbr hlo hhi).2⟩
  · intro hnn last1 last2 h11 h12 h21 h22
    obtain ⟨i, l2, heq, hi1, hi2, -, -, hbr⟩ := upperIndex_spec hs hn h11 h12 a
    obtain ⟨i', l2', heq', hi1', hi2', -, -, hbr'⟩ := upperIndex_spec hs hn h21 h22 a
    rw [heq, heq']
    obtain ⟨hb1, hb2⟩ := hbr hlo hhi
    obtain ⟨hc1, hc2⟩ := hbr' hlo hhi
    have : i = i' := bracket_unique hs hi1 hi2 hb1 hb2 hi1' hi2' hc1 hc2 hnn
    simp [this]

/-- C1 witness: the amended theorem applied to the concrete non-uniform grid
[0, 1, 4], the non-node query 1/2 and the two hints 1 and 2. -/
theorem claim_C1_upperIndex_bracket_witness :
    (ArgVec.upperIndex ⟨#[(0:ℚ), 1, 4]⟩ 1 (1/2)).map Prod.fst =
      (ArgVec.upperIndex ⟨#[(0:ℚ), 1, 4]⟩ 2 (1/2)).map Prod.fst :=
  (claim_C1_upperIndex_bracket (v := ⟨#[(0:ℚ), 1, 4]⟩) (by decide) (by decide)
    (a := 1/2) (by decide) (by decide)).2 (by decide) 1 2 (by decide) (by decide)
    (by decide) (by decide)

/-- C1 counterexample: on the non-uniform grid [0, 1, 4] (so the cached
binary-search path runs), the in-range query a = 1 -- an interior node --
resolves to bracket 1 from hint 1 but to bracket 2 from hint 2, although
both hints are values the hint legitimately takes after prior calls; so the
returned index is NOT independent of the hint, refuting that part of the
claim as frozen. -/
theorem claim_C1_upperIndex_bracket_counterexample :
    strictIncrB #[(0:ℚ), 1, 4] = true ∧
    ArgVec.equalSpaced ⟨#[(0:ℚ), 1, 4]⟩ = false ∧
    ArgVec.front ⟨#[(0:ℚ), 1, 4]⟩ ≤ 1 ∧ (1:ℚ) ≤ ArgVec.back ⟨#[(0:ℚ), 1, 4]⟩ ∧
    (ArgVec.upperIndex ⟨#[(0:ℚ), 1, 4]⟩ 1 1).map Prod.fst = some 1 ∧
    (ArgVec.upperIndex ⟨#[(0:ℚ), 1, 4]⟩ 2 1).map Prod.fst = some 2 := by
  decide

/-- C9: starting from the constructor's initial hint value 1 and from any
hint in `[1, n-1]`, `upperIndex` on a strictly increasing array of `n ≥ 2`
arguments leaves the hint in `[1, n-1]` again, for every query value
(in-range or out of range); the `some` result certifies that every
backing-array access of the search (modelled by the checked reads `zget?`)
was within bounds. -/
theorem claim_C9_hint_invariant {v : ArgVec} (hs : strictIncrB v.vec = true)
    (hn : 2 ≤ v.vec.size) :
    (1 ≤ ArgVec.lastIndex0 ∧ ArgVec.lastIndex0 ≤ v.n - 1) ∧
    ∀ (last : ℤ) (a : ℚ), 1 ≤ last → last ≤ v.n - 1 →
      ∃ i last2, v.upperIndex last a = some (i, last2) ∧ 1 ≤ last2 ∧ last2 ≤ v.n - 1 := by
  have hnz : (2:ℤ) ≤ (v.vec.size : ℤ) := by exact_mod_cast hn
  refine ⟨⟨le_refl 1, ?_⟩, fun last a h1 h2 => ?_⟩
  · show (1:ℤ) ≤ v.n - 1
    have hvn : v.n = (v.vec.size : ℤ) := rfl
    omega
  · obtain ⟨i, last2, heq, -, -, hl1, hl2, -⟩ := upperIndex_spec hs hn h1 h2 a
    exact ⟨i, last2, heq, hl1, hl2⟩

/-- C9 witness: the invariant applied to the grid [0, 1, 4] with hint 2 and
the out-of-range query 100. -/
theorem claim_C9_hint_invariant_witness :
    ∃ i last2, ArgVec.upperIndex ⟨#[(0:ℚ), 1, 4]⟩ 2 100 = some (i, last2) ∧
      1 ≤ last2 ∧ last2 ≤ ArgVec.n ⟨#[(0:ℚ), 1, 4]⟩ - 1 :=
  (claim_C9_hint_invariant (v := ⟨#[(0:ℚ), 1, 4]⟩) (by decide) (by decide)).2
    2 100 (by decide) (by decide)

/-- C8: a query below the first argument resolves to bracket index 1 and one
above the last argument to `n-1`; no error is raised (the result is `some`),
and the raw `Table::lookup` returns the active mode's interpolation formula
evaluated at that clamped boundary bracket -- extrapolation -- rather than
substituting zero (the zero-for-out-of-domain policy lives only in
`Table::operator()`, a higher layer). -/
theorem claim_C8_boundary_clamp {t : Table1} (hs : strictIncrB t.args.vec = true)
    (hn : 2 ≤ t.args.vec.size) (last : ℤ) (a : ℚ) :
    (a < t.args.front →
      t.args.upperIndex last a = some (1, last) ∧
      tableLookup t last a = some (interpValue t a 1, last)) ∧
    (t.args.back < a →
      t.args.upperIndex last a = some (t.args.n - 1, last) ∧
      tableLookup t last a = some (interpValue t a (t.args.n - 1), last)) := by
  constructor
  · intro hlt
    have h1 : t.args.upperIndex last a = some (1, last) := by
      rw [ArgVec.upperIndex, if_pos hlt]
    exact ⟨h1, by rw [tableLookup, h1, Option.map_some']⟩
  · intro hgt
    have hnl : ¬ (a < t.args.front) :=
      not_lt.mpr (le_of_lt (lt_trans (front_lt_back hs hn) hgt))
    have h1 : t.args.upperIndex last a = some (t.args.n - 1, last) := by
      rw [ArgVec.upperIndex, if_neg hnl, if_pos hgt]
    exact ⟨h1, by rw [tableLookup, h1, Option.map_some']⟩

/-! ### Exactness at the nodes (1D) -/

theorem zgetD_natCast (A : Array ℚ) (k : ℕ) : zgetD A (k : ℤ) = A.getD k 0 := by
  simp [zgetD]

theorem linearInterpolate_left {x : Array ℚ} (v : Array ℚ) {i : ℤ}
    (hlt : zgetD x (i-1) < zgetD x i) :
    linearInterpolate x v (zgetD x (i-1)) i = zgetD v (i-1) := by
  rw [linearInterpolate, div_self (sub_ne_zero.mpr (ne_of_gt hlt))]
  ring

theorem linearInterpolate_right (x v : Array ℚ) (i : ℤ) :
    linearInterpolate x v (zgetD x i) i = zgetD v i := by
  rw [linearInterpolate, sub_self, zero_div]
  ring

theorem floorInterpolate_left {x : Array ℚ} (v : Array ℚ) {i : ℤ}
    (hlt : zgetD x (i-1) < zgetD x i) :
    floorInterpolate x v (zgetD x (i-1)) i = zgetD v (i-1) := by
  rw [floorInterpolate, if_neg (ne_of_lt hlt)]

theorem floorInterpolate_right (x v : Array ℚ) (i : ℤ) :
    floorInterpolate x v (zgetD x i) i = zgetD v i := by
  rw [floorInterpolate, if_pos rfl, add_sub_cancel_right]

theorem ceilInterpolate_left (x v : Array ℚ) (i : ℤ) :
    ceilInterpolate x v (zgetD x (i-1)) i = zgetD v (i-1) := by
  rw [ceilInterpolate, if_pos rfl]

theorem ceilInterpolate_right {x : Array ℚ} (v : Array ℚ) {i : ℤ}
    (hlt : zgetD x (i-1) < zgetD x i) :
    ceilInterpolate x v (zgetD x i) i = zgetD v i := by
  rw [ceilInterpolate, if_neg (ne_of_gt hlt)]

theorem nearestInterpolate_left {x : Array ℚ} (v : Array ℚ) {i : ℤ}
    (hlt : zgetD x (i-1) < zgetD x i) :
    nearestInterpolate x v (zgetD x (i-1)) i = zgetD v (i-1) := by
  rw [nearestInterpolate, if_pos (by linarith)]

theorem nearestInterpolate_right {x : Array ℚ} (v : Array ℚ) {i : ℤ}
    (hlt : zgetD x (i-1) < zgetD x i) :
    nearestInterpolate x v (zgetD x i) i = zgetD v i := by
  rw [nearestInterpolate, if_neg (by linarith)]

theorem splineInterpolate_left {x : Array ℚ} (v y2 : Array ℚ) {i : ℤ}
    (hlt : zgetD x (i-1) < zgetD x i) :
    splineInterpolate x v y2 (zgetD x (i-1)) i = zgetD v (i-1) := by
  rw [splineInterpolate]
  have hne : zgetD x i - zgetD x (i-1) ≠ 0 := sub_ne_zero.mpr (ne_of_gt hlt)
  field_simp

theorem splineInterpolate_right {x : Array ℚ} (v y2 : Array ℚ) {i : ℤ}
    (hlt : zgetD x (i-1) < zgetD x i) :
    splineInterpolate x v y2 (zgetD x i) i = zgetD v i := by
  rw [splineInterpolate]
  have hne : zgetD x i - zgetD x (i-1) ≠ 0 := sub_ne_zero.mpr (ne_of_gt hlt)
  field_simp

theorem interpValue_at_node {t : Table1} (hs : strictIncrB t.args.vec = true)
    {k : ℕ} (hk : k < t.args.vec.size) {i : ℤ} (hi1 : 1 ≤ i)
    (hi2 : i ≤ (t.args.vec.size : ℤ) - 1)
    (hb1 : zgetD t.args.vec (i-1) ≤ t.args.vec.getD k 0)
    (hb2 : t.args.vec.getD k 0 ≤ zgetD t.args.vec i)
    (hknown : t.iType.known = true) :
    interpValue t (t.args.vec.getD k 0) i = t.vals.getD k 0 := by
  have ha : t.args.vec.getD k 0 = zgetD t.args.vec (k : ℤ) := (zgetD_natCast _ k).symm
  have hlt : zgetD t.args.vec (i-1) < zgetD t.args.vec i :=
    sInc_zlt hs (by omega) (by omega) (by omega)
  have hk1 : i - 1 ≤ (k : ℤ) := by
    by_contra hcon
    push_neg at hcon
    have hx : zgetD t.args.vec (k : ℤ) < zgetD t.args.vec (i-1) :=
      sInc_zlt hs (by omega) hcon (by omega)
    rw [← ha] at hx
    linarith
  have hk2 : (k : ℤ) ≤ i := by
    by_contra hcon
    push_neg at hcon
    have hx : zgetD t.args.vec i < zgetD t.args.vec (k : ℤ) :=
      sInc_zlt hs (by omega) hcon (by omega)
    rw [← ha] at hx
    linarith
  have hvk : t.vals.getD k 0 = zgetD t.vals (k : ℤ) := (zgetD_natCast _ k).symm
  have hcase : (k : ℤ) = i - 1 ∨ (k : ℤ) = i := by omega
  cases ht : t.iType with
  | linear =>
    rw [interpValue, ht]
    rcases hcase with hc | hc
    · rw [ha, hc, linearInterpolate_left _ hlt, hvk, hc]
    · rw [ha, hc, linearInterpolate_right, hvk, hc]
  | floor =>
    rw [interpValue, ht]
    rcases hcase with hc | hc
    · rw [ha, hc, floorInterpolate_left _ hlt, hvk, hc]
    · rw [ha, hc, floorInterpolate_right, hvk, hc]
  | ceil =>
    rw [interpValue, ht]
    rcases hcase with hc | hc
    · rw [ha, hc, ceilInterpolate_left, hvk, hc]
    · rw [ha, hc, ceilInterpolate_right _ hlt, hvk, hc]
  | nearest =>
    rw [interpValue, ht]
    rcases hcase with hc | hc
    · rw [ha, hc, nearestInterpolate_left _ hlt, hvk, hc]
    · rw [ha, hc, nearestInterpolate_right _ hlt, hvk, hc]
  | spline =>
    rw [interpValue, ht]
    rcases hcase with hc | hc
    · rw [ha, hc, splineInterpolate_left _ _ hlt, hvk, hc]
    · rw [ha, hc, splineInterpolate_right _ _ hlt, hvk, hc]
  | other z =>
    rw [ht] at hknown
    cases hknown

/-- C2: for a 1D table in any of the five modes over strictly increasing
arguments (values array of matching length), `lookup(args[k])` returns
exactly `vals[k]` under exact arithmetic, from any valid hint state; and the
floor formula shifts the bracket to `i` when `a == x[i]` exactly while the
ceil formula shifts to `i-1` when `a == x[i-1]` exactly. -/
theorem claim_C2_node_exactness {t : Table1} (hs : strictIncrB t.args.vec = true)
    (hn : 2 ≤ t.args.vec.size) (hv : t.vals.size = t.args.vec.size)
    (hknown : t.iType.known = true) {last : ℤ} (hl1 : 1 ≤ last)
    (hl2 : last ≤ t.args.n - 1) {k : ℕ} (hk : k < t.args.vec.size) :
    (∃ last2, tableLookup t last (t.args.vec.getD k 0) = some (t.vals.getD k 0, last2)) ∧
    (∀ (x v : Array ℚ) (i : ℤ), floorInterpolate x v (zgetD x i) i = zgetD v i) ∧
    (∀ (x v : Array ℚ) (i : ℤ), ceilInterpolate x v (zgetD x (i-1)) i = zgetD v (i-1)) := by
  refine ⟨?_, fun x v i => floorInterpolate_right x v i, fun x v i => ceilInterpolate_left x v i⟩
  have hlo : t.args.front ≤ t.args.vec.getD k 0 := by
    rw [ArgVec.front]
    exact sInc_le hs (Nat.zero_le k) hk
  have hhi : t.args.vec.getD k 0 ≤ t.args.back := by
    rw [ArgVec.back]
    exact sInc_le hs (by omega) (by omega)
  obtain ⟨i, last2, heq, hi1, hi2, -, -, hbr⟩ := upperIndex_spec hs hn hl1 hl2 _
  obtain ⟨hb1, hb2⟩ := hbr hlo hhi
  refine ⟨last2, ?_⟩
  rw [tableLookup, heq, Option.map_some']
  have hiv := interpValue_at_node hs hk hi1 hi2 hb1 hb2 hknown
  rw [hiv]

/-- C2 witness: the spline table over [0, 1, 2, 4] with values [0, 1, 0, 2]
evaluated at the node args[2] = 2 returns vals[2] = 0 (and the floor/ceil
boundary shifts instantiated at a concrete index). -/
theorem claim_C2_node_exactness_witness :
    (∃ last2, tableLookup ⟨Interp.spline, ⟨#[(0:ℚ), 1, 2, 4]⟩, #[0, 1, 0, 2],
        #[0, -84/23, 60/23, 0]⟩ 1 ((#[(0:ℚ), 1, 2, 4]).getD 2 0) =
      some ((#[(0:ℚ), 1, 0, 2]).getD 2 0, last2)) ∧
    (∀ (x v : Array ℚ) (i : ℤ), floorInterpolate x v (zgetD x i) i = zgetD v i) ∧
    (∀ (x v : Array ℚ) (i : ℤ), ceilInterpolate x v (zgetD x (i-1)) i = zgetD v (i-1)) :=
  claim_C2_node_exactness (t := ⟨Interp.spline, ⟨#[(0:ℚ), 1, 2, 4]⟩, #[0, 1, 0, 2],
    #[0, -84/23, 60/23, 0]⟩) (by decide) (by decide) (by decide) (by decide)
    (by decide) (by decide) (k := 2) (by decide)

/-! ### The nearest-mode tie break -/

theorem upperIndex_strict_inside {v : ArgVec} (hs : strictIncrB v.vec = true)
    (hn : 2 ≤ v.vec.size) {last : ℤ} (hl1 : 1 ≤ last) (hl2 : last ≤ v.n - 1)
    {k : ℕ} {a : ℚ} (hk : (k : ℤ) + 1 ≤ (v.vec.size : ℤ) - 1)
    (h1 : zgetD v.vec (k : ℤ) < a) (h2 : a < zgetD v.vec ((k : ℤ) + 1)) :
    ∃ last2, v.upperIndex last a = some ((k : ℤ) + 1, last2) ∧
      1 ≤ last2 ∧ last2 ≤ v.n - 1 := by
  have hnz : (2:ℤ) ≤ (v.vec.size : ℤ) := by exact_mod_cast hn
  have hvn : v.n = (v.vec.size : ℤ) := rfl
  have hlo : v.front ≤ a := by
    rw [front_eq_zget]
    exact le_trans (sInc_zle hs (le_refl 0) (by omega) (by omega)) (le_of_lt h1)
  have hhi : a ≤ v.back := by
    rw [back_eq_zget v (by omega)]
    exact le_trans (le_of_lt h2) (sInc_zle hs (by omega) (by omega) (by omega))
  obtain ⟨i, last2, heq, hi1, hi2, hla, hlb, hbr⟩ := upperIndex_spec hs hn hl1 hl2 a
  obtain ⟨hb1, hb2⟩ := hbr hlo hhi
  have hile : i ≤ (k : ℤ) + 1 := by
    by_contra hcon
    push_neg at hcon
    have : zgetD v.vec ((k : ℤ) + 1) ≤ zgetD v.vec (i - 1) :=
      sInc_zle hs (by omega) (by omega) (by omega)
    linarith
  have hige : (k : ℤ) + 1 ≤ i := by
    by_contra hcon
    push_neg at hcon
    have : zgetD v.vec i ≤ zgetD v.vec (k : ℤ) :=
      sInc_zle hs (by omega) (by omega) (by omega)
    linarith
  have : i = (k : ℤ) + 1 := by omega
  rw [this] at heq
  exact ⟨last2, heq, hla, hlb⟩

/-- C4 (amended): in nearest mode, when the query is exactly equidistant
from the two bracketing nodes, the strict comparison
`if ((a - args[i-1]) < (args[i] - a)) i--;` is false on the tie, so the
value returned is the one at the UPPER node `i` -- both for the 1D table
and per axis for the 2D table.  (The claim as frozen said the lower node
`i-1`; the code breaks the tie the other way, see the counterexample.) -/
theorem claim_C4_nearest_tie :
    (∀ (t : Table1), strictIncrB t.args.vec = true → 2 ≤ t.args.vec.size →
      t.iType = Interp.nearest →
      ∀ (last : ℤ), 1 ≤ last → last ≤ t.args.n - 1 →
      ∀ (k : ℕ) (a : ℚ), (k : ℤ) + 1 ≤ (t.args.vec.size : ℤ) - 1 →
      a - zgetD t.args.vec (k : ℤ) = zgetD t.args.vec ((k : ℤ) + 1) - a →
      ∃ last2, tableLookup t last a = some (zgetD t.vals ((k : ℤ) + 1), last2)) ∧
    (∀ (t : Table2D), strictIncrB t.xargs.vec = true → 2 ≤ t.xargs.vec.size →
      strictIncrB t.yargs.vec = true → 2 ≤ t.yargs.vec.size →
      t.iType = Interp2.nearest →
      ∀ (lx ly : ℤ), 1 ≤ lx → lx ≤ t.xargs.n - 1 → 1 ≤ ly → ly ≤ t.yargs.n - 1 →
      ∀ (kx ky : ℕ) (qx qy : ℚ),
        (kx : ℤ) + 1 ≤ (t.xargs.vec.size : ℤ) - 1 →
        (ky : ℤ) + 1 ≤ (t.yargs.vec.size : ℤ) - 1 →
        qx - zgetD t.xargs.vec (kx : ℤ) = zgetD t.xargs.vec ((kx : ℤ) + 1) - qx →
        qy - zgetD t.yargs.vec (ky : ℤ) = zgetD t.yargs.vec ((ky : ℤ) + 1) - qy →
        ∃ lx2 ly2, t2dLookup t lx ly qx qy =
          some (zgetD t.vals (((kx : ℤ) + 1) * t.ny + ((ky : ℤ) + 1)), lx2, ly2)) := by
  constructor
  · intro t hs hn hmode last hl1 hl2 k a hk ha
    have hd : zgetD t.args.vec (k : ℤ) < zgetD t.args.vec ((k : ℤ) + 1) :=
      sInc_zlt hs (by omega) (by omega) (by omega)
    obtain ⟨last2, heq, -, -⟩ :=
      upperIndex_strict_inside (a := a) hs hn hl1 hl2 hk (by linarith) (by linarith)
    refine ⟨last2, ?_⟩
    rw [tableLookup, heq, Option.map_some']
    rw [interpValue, hmode, nearestInterpolate]
    have hidx : (k : ℤ) + 1 - 1 = (k : ℤ) := by omega
    rw [hidx, if_neg (not_lt.mpr (le_of_eq ha.symm))]
  · intro t hsx hnx hsy hny hmode lx ly hlx1 hlx2 hly1 hly2 kx ky qx qy hkx hky hax hay
    have hdx : zgetD t.xargs.vec (kx : ℤ) < zgetD t.xargs.vec ((kx : ℤ) + 1) :=
      sInc_zlt hsx (by omega) (by omega) (by omega)
    have hdy : zgetD t.yargs.vec (ky : ℤ) < zgetD t.yargs.vec ((ky : ℤ) + 1) :=
      sInc_zlt hsy (by omega) (by omega) (by omega)
    obtain ⟨lx2, heqx, -, -⟩ :=
      upperIndex_strict_inside (a := qx) hsx hnx hlx1 hlx2 hkx (by linarith) (by linarith)
    obtain ⟨ly2, heqy, -, -⟩ :=
      upperIndex_strict_inside (a := qy) hsy hny hly1 hly2 hky (by linarith) (by linarith)
    refine ⟨lx2, ly2, ?_⟩
    rw [t2dLookup]
    rw [heqx, heqy]
    simp only []
    rw [interp2, hmode, t2dNearestInterp]
    have hix : (kx : ℤ) + 1 - 1 = (kx : ℤ) := by omega
    have hiy : (ky : ℤ) + 1 - 1 = (ky : ℤ) := by omega
    rw [hix, hiy, if_neg (not_lt.mpr (le_of_eq hax.symm)), if_neg (not_lt.mpr (le_of_eq hay.symm))]

/-- C4 witness: the amended tie-break applied to concrete tables.  1D:
args [0, 2], vals [10, 20], query 1 (equidistant) returns 20, the value at
the upper node.  2D: both axes [0, 2], vals [1, 2, 3, 4], query (1, 1)
returns 4, the upper-upper corner. -/
theorem claim_C4_nearest_tie_witness :
    (∃ last2, tableLookup ⟨Interp.nearest, ⟨#[(0:ℚ), 2]⟩, #[10, 20], #[]⟩ 1 1 =
      some (zgetD #[(10:ℚ), 20] ((0 : ℤ) + 1), last2)) ∧
    (∃ lx2 ly2, t2dLookup ⟨⟨#[(0:ℚ), 2]⟩, ⟨#[(0:ℚ), 2]⟩, #[1, 2, 3, 4], 2, 2,
        Interp2.nearest, #[], #[], #[], ⟨0, false, fun _ _ => 0⟩⟩ 1 1 1 1 =
      some (zgetD #[(1:ℚ), 2, 3, 4] (((0 : ℤ) + 1) * 2 + ((0 : ℤ) + 1)), lx2, ly2)) :=
  ⟨claim_C4_nearest_tie.1 ⟨Interp.nearest, ⟨#[(0:ℚ), 2]⟩, #[10, 20], #[]⟩
      (by decide) (by decide) rfl 1 (by decide) (by decide) 0 1 (by decide) (by decide),
   claim_C4_nearest_tie.2 ⟨⟨#[(0:ℚ), 2]⟩, ⟨#[(0:ℚ), 2]⟩, #[1, 2, 3, 4], 2, 2,
        Interp2.nearest, #[], #[], #[], ⟨0, false, fun _ _ => 0⟩⟩
      (by decide) (by decide) (by decide) (by decide) rfl 1 1 (by decide) (by decide)
      (by decide) (by decide) 0 0 1 1 (by decide) (by decide) (by decide) (by decide)⟩

/-- C4 counterexample: with args [0, 2] and vals [10, 20], the 1D nearest
lookup of the exactly equidistant query 1 returns 20 = vals[1] (the upper
node), not vals[0] = 10 as the claim states; the 2D analogue on axes [0, 2]
with corner values [1, 2, 3, 4] returns the upper-upper corner 4, not the
lower-lower corner 1. -/
theorem claim_C4_nearest_tie_counterexample :
    tableLookup ⟨Interp.nearest, ⟨#[(0:ℚ), 2]⟩, #[10, 20], #[]⟩ 1 1 = some (20, 1) ∧
    ((20:ℚ), (1:ℤ)) ≠ ((#[(10:ℚ), 20]).getD 0 0, 1) ∧
    t2dLookup ⟨⟨#[(0:ℚ), 2]⟩, ⟨#[(0:ℚ), 2]⟩, #[1, 2, 3, 4], 2, 2,
        Interp2.nearest, #[], #[], #[], ⟨0, false, fun _ _ => 0⟩⟩ 1 1 1 1 =
      some (4, 1, 1) ∧
    ((4:ℚ)) ≠ (#[(1:ℚ), 2, 3, 4]).getD 0 0 := by
  refine ⟨by decide, by decide, ?_, by decide⟩
  decide

/-! ### Construction-time errors -/

theorem mkArgVec_ok {A : Array ℚ} (hn : 2 ≤ A.size) : mkArgVec A = some ⟨A⟩ := by
  have h1 := zget?_eq_some (A := A) (k := (A.size : ℤ) - 1) (by omega) (by omega)
  have h2 := zget?_eq_some (A := A) (k := 0) (by omega) (by omega)
  have h3 := zget?_eq_some (A := A) (k := 1) (by omega) (by omega)
  have h4 := zget?_eq_some (A := A) (k := (A.size : ℤ) - 2) (by omega) (by omega)
  simp [mkArgVec, h1, h2, h3, h4]

/-- C5: requesting an unrecognized interpolation-mode tag raises the fatal
`std::runtime_error("invalid interpolation method")` from the constructor's
switch, and requesting spline mode with 2 nodes (the only node count below 3
for which the data model's `n ≥ 2` contract holds) raises the fatal
`std::length_error` from `std::vector<double> c(_n-3)` (the negative `int`
`-1` converts to a `size_t` above `max_size()`); in both cases construction
aborts with an error and no table value is produced. -/
theorem claim_C5_construction_errors :
    (∀ (args vals : Array ℚ) (z : ℤ), 2 ≤ args.size →
      tableConstruct args vals (Interp.other z) =
        Except.error (CError.runtimeError ("invalid interpolation method"))) ∧
    (∀ (args vals : Array ℚ), args.size = 2 →
      tableConstruct args vals Interp.spline = Except.error CError.lengthError) := by
  constructor
  · intro args vals z hn
    rw [tableConstruct, mkArgVec_ok hn]
  · intro args vals hsz
    rw [tableConstruct, mkArgVec_ok (by omega)]
    have hsetup : setupSpline args vals = Except.error CError.lengthError := by
      rw [setupSpline]
      rw [if_neg (by omega), if_pos (by omega)]
    rw [hsetup]

/-- C5 witness: both construction errors at a concrete 2-node input. -/
theorem claim_C5_construction_errors_witness :
    tableConstruct #[(0:ℚ), 1] #[5, 7] (Interp.other 99) =
      Except.error (CError.runtimeError ("invalid interpolation method")) ∧
    tableConstruct #[(0:ℚ), 1] #[5, 7] Interp.spline = Except.error CError.lengthError :=
  ⟨claim_C5_construction_errors.1 #[(0:ℚ), 1] #[5, 7] 99 (by decide),
   claim_C5_construction_errors.2 #[(0:ℚ), 1] #[5, 7] (by decide)⟩

/-- C8 witness: a linear table over [0, 1] with values [3, 5]; the query -1
is below the domain, resolves to bracket 1, and raw lookup extrapolates to
the linear formula's value 1 (in particular not 0). -/
theorem claim_C8_boundary_clamp_witness :
    (ArgVec.upperIndex ⟨#[(0:ℚ), 1]⟩ 1 (-1) = some (1, 1) ∧
      tableLookup ⟨Interp.linear, ⟨#[(0:ℚ), 1]⟩, #[3, 5], #[]⟩ 1 (-1) =
        some (interpValue ⟨Interp.linear, ⟨#[(0:ℚ), 1]⟩, #[3, 5], #[]⟩ (-1) 1, 1)) ∧
    interpValue ⟨Interp.linear, ⟨#[(0:ℚ), 1]⟩, #[3, 5], #[]⟩ (-1) 1 = 1 :=
  ⟨(claim_C8_boundary_clamp (t := ⟨Interp.linear, ⟨#[(0:ℚ), 1]⟩, #[3, 5], #[]⟩)
      (by decide) (by decide) 1 (-1)).1 (by decide), by decide⟩

/-! ### 2D gradient capability errors -/

/-- C6: on a Table2D in floor, ceil, nearest or generic-kernel
(interpolant2d) mode, every `gradient` call -- and every `gradientMany`
call on at least one point -- raises the capability-mismatch
`std::runtime_error`, for all query points. -/
theorem claim_C6_gradient_unsupported {t : Table2D}
    (hsx : strictIncrB t.xargs.vec = true) (hnx : 2 ≤ t.xargs.vec.size)
    (hsy : strictIncrB t.yargs.vec = true) (hny : 2 ≤ t.yargs.vec.size)
    (hmode : t.iType = Interp2.floor ∨ t.iType = Interp2.ceil ∨
      t.iType = Interp2.nearest ∨ t.iType = Interp2.interpolant2d)
    {lx ly : ℤ} (hlx1 : 1 ≤ lx) (hlx2 : lx ≤ t.xargs.n - 1)
    (hly1 : 1 ≤ ly) (hly2 : ly ≤ t.yargs.n - 1) :
    (∀ x y : ℚ, ∃ msg, t2dGradient t lx ly x y = Except.error (CError.runtimeError msg)) ∧
    (∀ (ps : List (ℚ × ℚ)), ps ≠ [] →
      ∃ msg, t2dGradientMany t lx ly ps = Except.error (CError.runtimeError msg)) := by
  have hgrad : ∀ x y : ℚ, ∃ msg,
      t2dGradient t lx ly x y = Except.error (CError.runtimeError msg) := by
    intro x y
    obtain ⟨i, lx2, heqx, -⟩ := upperIndex_spec hsx hnx hlx1 hlx2 x
    obtain ⟨j, ly2, heqy, -⟩ := upperIndex_spec hsy hny hly1 hly2 y
    rcases hmode with h | h | h | h
    · exact ⟨"gradient not implemented for floor interp", by rw [t2dGradient, heqx, heqy, h]⟩
    · exact ⟨"gradient not implemented for ceil interp", by rw [t2dGradient, heqx, heqy, h]⟩
    · exact ⟨"gradient not implemented for nearest interp", by rw [t2dGradient, heqx, heqy, h]⟩
    · exact ⟨"gradient not implemented for Interp interp", by rw [t2dGradient, heqx, heqy, h]⟩
  refine ⟨hgrad, fun ps hne => ?_⟩
  cases ps with
  | nil => exact absurd rfl hne
  | cons p rest =>
    obtain ⟨x, y⟩ := p
    obtain ⟨msg, hg⟩ := hgrad x y
    exact ⟨msg, by rw [t2dGradientMany, hg]⟩

/-- C6 witness: a concrete 2×2 nearest-mode table: both `gradient` and a
one-point `gradientMany` fail with the capability-mismatch error. -/
theorem claim_C6_gradient_unsupported_witness :
    (∃ msg, t2dGradient ⟨⟨#[(0:ℚ), 2]⟩, ⟨#[(0:ℚ), 2]⟩, #[1, 2, 3, 4], 2, 2,
        Interp2.nearest, #[], #[], #[], ⟨0, false, fun _ _ => 0⟩⟩ 1 1 1 1 =
      Except.error (CError.runtimeError msg)) ∧
    (∃ msg, t2dGradientMany ⟨⟨#[(0:ℚ), 2]⟩, ⟨#[(0:ℚ), 2]⟩, #[1, 2, 3, 4], 2, 2,
        Interp2.nearest, #[], #[], #[], ⟨0, false, fun _ _ => 0⟩⟩ 1 1 [(1, 1)] =
      Except.error (CError.runtimeError msg)) :=
  ⟨(claim_C6_gradient_unsupported (t := ⟨⟨#[(0:ℚ), 2]⟩, ⟨#[(0:ℚ), 2]⟩, #[1, 2, 3, 4], 2, 2,
      Interp2.nearest, #[], #[], #[], ⟨0, false, fun _ _ => 0⟩⟩)
      (by decide) (by decide) (by decide) (by decide) (Or.inr (Or.inr (Or.inl rfl)))
      (by decide) (by decide) (by decide) (by decide)).1 1 1,
   (claim_C6_gradient_unsupported (t := ⟨⟨#[(0:ℚ), 2]⟩, ⟨#[(0:ℚ), 2]⟩, #[1, 2, 3, 4], 2, 2,
      Interp2.nearest, #[], #[], #[], ⟨0, false, fun _ _ => 0⟩⟩)
      (by decide) (by decide) (by decide) (by decide) (Or.inr (Or.inr (Or.inl rfl)))
      (by decide) (by decide) (by decide) (by decide)).2 [(1, 1)] (by decide)⟩

/-- C10: in generic-kernel mode, whenever the clamped support window is
empty along either axis (`ixMin > ixMax` or `iyMin > iyMax` as computed by
the code), `interp` returns exactly 0; and this occurs even for query
points strictly inside the table's domain, as the concrete 3×3 table with a
radius-1/4 kernel and the in-domain query (1/2, 1/2) shows (all stored
values are 1, yet lookup returns 0). -/
theorem claim_C10_kernel_empty_window :
    (∀ (t : Table2D) (x y : ℚ) (i j : ℤ),
      ((xWindow t.interp2d t.nx i (dxOf t.xargs.vec x i)).1 >
          (xWindow t.interp2d t.nx i (dxOf t.xargs.vec x i)).2 ∨
        (xWindow t.interp2d t.ny j (dxOf t.yargs.vec y j)).1 >
          (xWindow t.interp2d t.ny j (dxOf t.yargs.vec y j)).2) →
      t2dInterp2DInterp t x y i j = 0) ∧
    t2dLookup c10Table 1 1 (1/2) (1/2) = some (0, 1, 1) ∧
    ArgVec.front c10Table.xargs < 1/2 ∧ (1/2 : ℚ) < ArgVec.back c10Table.xargs ∧
    ArgVec.front c10Table.yargs < 1/2 ∧ (1/2 : ℚ) < ArgVec.back c10Table.yargs ∧
    c10Table.vals.getD 4 0 = 1 := by
  refine ⟨fun t x y i j hemp => ?_, by decide, by decide, by decide, by decide,
    by decide, by decide⟩
  rw [t2dInterp2DInterp]
  rcases hemp with hx | hy
  · simp only [if_pos hx]
  · by_cases hx : (xWindow t.interp2d t.nx i (dxOf t.xargs.vec x i)).1 >
        (xWindow t.interp2d t.nx i (dxOf t.xargs.vec x i)).2
    · simp only [if_pos hx]
    · simp only [if_neg hx, if_pos hy]

/-- C10 witness: the universally quantified empty-window part applied to the
concrete table and query. -/
theorem claim_C10_kernel_empty_window_witness :
    t2dInterp2DInterp c10Table (1/2) (1/2) 1 1 = 0 :=
  claim_C10_kernel_empty_window.1 c10Table (1/2) (1/2) 1 1 (Or.inl (by decide))

/-! ### The natural-cubic-spline second-derivative solve -/

theorem mkArray_getD (n j : ℕ) : (Array.mkArray n (0:ℚ)).getD j 0 = 0 := by
  by_cases hj : j < n
  · simp [Array.getD, hj]
  · simp [Array.getD, hj]

theorem foldl_setD_size (x y : Array ℚ) : ∀ (l s : ℕ) (arr : Array ℚ),
    ((List.range' s l).foldl (fun a i => a.setD i (splineRHS x y i)) arr).size = arr.size := by
  intro l
  induction l with
  | zero => intro s arr; rfl
  | succ k ih =>
    intro s arr
    rw [List.range'_succ, List.foldl_cons, ih]
    exact Array.size_setD ..

theorem foldl_setD_getD (x y : Array ℚ) : ∀ (l s : ℕ) (arr : Array ℚ), s + l ≤ arr.size →
    ∀ j : ℕ, ((List.range' s l).foldl (fun a i => a.setD i (splineRHS x y i)) arr).getD j 0 =
      if s ≤ j ∧ j < s + l then splineRHS x y j else arr.getD j 0 := by
  intro l
  induction l with
  | zero =>
    intro s arr _ j
    rw [if_neg (by omega)]
    rfl
  | succ k ih =>
    intro s arr hsz j
    rw [List.range'_succ, List.foldl_cons]
    rw [ih (s+1) _ (by rw [Array.size_setD]; omega) j]
    by_cases hj : j = s
    · subst hj
      rw [if_neg (by omega), if_pos (by omega)]
      exact getD_setD_self (by omega) _
    · rw [getD_setD_ne (Ne.symm hj)]
      by_cases hin : s + 1 ≤ j ∧ j < s + 1 + k
      · rw [if_pos hin, if_pos (by omega)]
      · rw [if_neg hin, if_neg (by omega)]

theorem y2Init_spec (x y : Array ℚ) (n : ℕ) (hn : 2 ≤ n) :
    (y2Init x y n).size = n ∧ (y2Init x y n).getD 0 0 = 0 ∧
    (y2Init x y n).getD (n-1) 0 = 0 ∧
    ∀ j, 1 ≤ j → j ≤ n - 2 → (y2Init x y n).getD j 0 = splineRHS x y j := by
  have hsz : (Array.mkArray n (0:ℚ)).size = n := Array.size_mkArray n 0
  have hget := foldl_setD_getD x y (n-2) 1 (Array.mkArray n 0) (by omega)
  refine ⟨?_, ?_, ?_, fun j hj1 hj2 => ?_⟩
  · rw [y2Init, foldl_setD_size, hsz]
  · rw [y2Init, hget 0, if_neg (by omega), mkArray_getD]
  · rw [y2Init, hget (n-1), if_neg (by omega), mkArray_getD]
  · rw [y2Init, hget j, if_pos (by omega)]

theorem bp_one (x : Array ℚ) : bp x 1 = 2 * (x.getD 2 0 - x.getD 0 0) := rfl

theorem bp_succ (x : Array ℚ) (k : ℕ) :
    bp x (k+2) = 2 * (x.getD (k+3) 0 - x.getD (k+1) 0) -
      hseq x (k+1) * (hseq x (k+1) / bp x (k+1)) := rfl

theorem wseq_zero (x y : Array ℚ) : wseq x y 0 = 0 := rfl

theorem wseq_succ (x y : Array ℚ) (k : ℕ) :
    wseq x y (k+1) = (splineRHS x y (k+1) - hseq x k * wseq x y k) / bp x (k+1) := rfl

theorem gam0_zero (x : Array ℚ) : gam0 x 0 = 0 := rfl

theorem gam0_succ (x : Array ℚ) (k : ℕ) : gam0 x (k+1) = hseq x (k+1) / bp x (k+1) := rfl

theorem bp_pos {x : Array ℚ} {m : ℕ} (hh : ∀ kk : ℕ, kk ≤ m → 0 < hseq x kk) :
    ∀ i, 1 ≤ i → i ≤ m → hseq x i < bp x i ∧ 0 < bp x i := by
  intro i h1
  induction i, h1 using Nat.le_induction with
  | base =>
    intro hm
    have h0 := hh 0 (by omega)
    have h1' := hh 1 (by omega)
    have hx20 : x.getD 2 0 - x.getD 0 0 = hseq x 0 + hseq x 1 := by
      rw [hseq, hseq]; ring
    constructor
    · rw [bp_one, hx20]; linarith
    · rw [bp_one, hx20]; linarith
  | succ i hi ih =>
    intro hm
    obtain ⟨iha, ihb⟩ := ih (by omega)
    have hhi := hh i (by omega)
    have hhi1 := hh (i+1) (by omega)
    have hbp : bp x (i+1) = 2 * (x.getD (i+2) 0 - x.getD i 0) -
        hseq x i * (hseq x i / bp x i) := by
      obtain ⟨k, rfl⟩ : ∃ k, i = k + 1 := ⟨i - 1, by omega⟩
      exact bp_succ x k
    have hgam : hseq x i / bp x i < 1 := (div_lt_one ihb).mpr iha
    have hlt : hseq x i * (hseq x i / bp x i) < hseq x i * 1 :=
      mul_lt_mul_of_pos_left hgam hhi
    have hxdiff : x.getD (i+2) 0 - x.getD i 0 = hseq x i + hseq x (i+1) := by
      rw [hseq, hseq]; ring
    constructor
    · rw [hbp, hxdiff]; linarith
    · rw [hbp, hxdiff]; linarith

theorem zsol_zero (x y : Array ℚ) (m : ℕ) : zsol x y m 0 = 0 := by
  rw [zsol, if_pos (Or.inl rfl)]

theorem zsol_top (x y : Array ℚ) (m : ℕ) : zsol x y m (m+1) = 0 := by
  rw [zsol, if_pos (Or.inr (by omega))]

theorem zsol_rec (x y : Array ℚ) (m : ℕ) : ∀ j, 1 ≤ j → j ≤ m →
    zsol x y m j = wseq x y j - gam0 x j * zsol x y m (j+1) := by
  intro j h1 h2
  rcases eq_or_lt_of_le h2 with heq | hlt
  · subst heq
    rw [zsol, if_neg (by omega), zsol_top, Nat.sub_self, zrev]
    ring
  · rw [zsol, if_neg (by omega), zsol, if_neg (by omega)]
    have hmj : m - j = (m - (j+1)) + 1 := by omega
    rw [hmj, zrev, if_neg (by omega)]
    have hidx : m - (m - (j+1) + 1) = j := by omega
    rw [hidx]

theorem fwdAux_spec (x y : Array ℚ) (m : ℕ) :
    ∀ (cnt i : ℕ) (y2 c : Array ℚ) (bb : ℚ),
    cnt + i = m + 1 → 1 ≤ i → i ≤ m →
    y2.size = m + 2 → c.size = m - 1 →
    bb = bp x i →
    y2.getD 0 0 = 0 → y2.getD (m+1) 0 = 0 →
    (∀ j, 1 ≤ j → j < i → y2.getD j 0 = wseq x y j) →
    y2.getD i 0 = splineRHS x y i - hseq x (i-1) * wseq x y (i-1) →
    (∀ j, i < j → j ≤ m → y2.getD j 0 = splineRHS x y j) →
    (∀ j, 1 ≤ j → j < i → c.getD (j-1) 0 = gam0 x j) →
    (fwdAux x m cnt i (y2, c, bb)).1.size = m + 2 ∧
    (fwdAux x m cnt i (y2, c, bb)).2.1.size = m - 1 ∧
    (fwdAux x m cnt i (y2, c, bb)).1.getD 0 0 = 0 ∧
    (fwdAux x m cnt i (y2, c, bb)).1.getD (m+1) 0 = 0 ∧
    (∀ j, 1 ≤ j → j ≤ m → (fwdAux x m cnt i (y2, c, bb)).1.getD j 0 = wseq x y j) ∧
    (∀ j, 1 ≤ j → j ≤ m - 1 → (fwdAux x m cnt i (y2, c, bb)).2.1.getD (j-1) 0 = gam0 x j) := by
  intro cnt
  induction cnt with
  | zero =>
    intro i y2 c bb hcnt h1 h2
    exact absurd hcnt (by omega)
  | succ ct ih =>
    intro i y2 c bb hcnt h1 h2 hy2s hcs hbb hz0 hzm hlow hcur hhigh hc
    have hdiv : y2.getD i 0 / bb = wseq x y i := by
      rw [hcur, hbb]
      obtain ⟨k, rfl⟩ : ∃ k, i = k + 1 := ⟨i - 1, by omega⟩
      rw [wseq_succ]
      congr 2
    have hstep : fwdAux x m (ct+1) i (y2, c, bb) =
        (if i = m then (y2.setD i (y2.getD i 0 / bb), c, bb)
         else fwdAux x m ct (i+1)
           ((y2.setD i (y2.getD i 0 / bb)).setD (i+1)
              ((y2.setD i (y2.getD i 0 / bb)).getD (i+1) 0 -
               (x.getD (i+1) 0 - x.getD i 0) * (y2.setD i (y2.getD i 0 / bb)).getD i 0),
            c.setD (i-1) ((x.getD (i+1) 0 - x.getD i 0) / bb),
            2 * (x.getD (i+2) 0 - x.getD i 0) -
              (x.getD (i+1) 0 - x.getD i 0) * ((x.getD (i+1) 0 - x.getD i 0) / bb))) := rfl
    rw [hstep]
    by_cases him : i = m
    · rw [if_pos him]
      subst him
      refine ⟨by rw [Array.size_setD, hy2s], hcs,
        by rw [getD_setD_ne (by omega), hz0],
        by rw [getD_setD_ne (by omega), hzm], fun j hj1 hj2 => ?_,
        fun j hj1 hj2 => hc j hj1 (by omega)⟩
      rcases eq_or_lt_of_le hj2 with heq | hlt
      · rw [heq, getD_setD_self (by omega), hdiv]
      · rw [getD_setD_ne (by omega), hlow j hj1 hlt]
    · have hilt : i < m := by omega
      have ha : x.getD (i+1) 0 - x.getD i 0 = hseq x i := rfl
      rw [if_neg him]
      have hy2ai : (y2.setD i (y2.getD i 0 / bb)).getD i 0 = wseq x y i := by
        rw [getD_setD_self (by omega), hdiv]
      have hy2ai1 : (y2.setD i (y2.getD i 0 / bb)).getD (i+1) 0 = splineRHS x y (i+1) := by
        rw [getD_setD_ne (by omega), hhigh (i+1) (by omega) (by omega)]
      have hbb2 : 2 * (x.getD (i+2) 0 - x.getD i 0) -
          (x.getD (i+1) 0 - x.getD i 0) * ((x.getD (i+1) 0 - x.getD i 0) / bb) =
          bp x (i+1) := by
        rw [hbb, ha]
        obtain ⟨k, rfl⟩ : ∃ k, i = k + 1 := ⟨i - 1, by omega⟩
        exact (bp_succ x k).symm
      rw [hbb2]
      apply ih (i+1) _ _ _ (by omega) (by omega) (by omega)
      · rw [Array.size_setD, Array.size_setD, hy2s]
      · rw [Array.size_setD, hcs]
      · rfl
      · rw [getD_setD_ne (by omega), getD_setD_ne (by omega), hz0]
      · rw [getD_setD_ne (by omega), getD_setD_ne (by omega), hzm]
      · intro j hj1 hjlt
        rcases eq_or_lt_of_le (by omega : j ≤ i) with heq | hlt
        · rw [heq] at hj1 hjlt ⊢
          rw [getD_setD_ne (by omega), hy2ai]
        · rw [getD_setD_ne (by omega), getD_setD_ne (by omega), hlow j hj1 hlt]
      · rw [getD_setD_self (by rw [Array.size_setD]; omega), hy2ai1, hy2ai, ha]
        congr 2
      · intro j hjgt hjle
        rw [getD_setD_ne (by omega), getD_setD_ne (by omega), hhigh j (by omega) hjle]
      · intro j hj1 hjlt
        rcases eq_or_lt_of_le (by omega : j ≤ i) with heq | hlt
        · rw [heq] at hj1 hjlt ⊢
          rw [getD_setD_self (by omega), ha, hbb]
          obtain ⟨k, rfl⟩ : ∃ k, i = k + 1 := ⟨i - 1, by omega⟩
          exact (gam0_succ x k).symm
        · rw [getD_setD_ne (by omega), hc j hj1 hlt]

theorem bwdAux_spec (x y : Array ℚ) (m : ℕ) (c : Array ℚ)
    (hc : ∀ j, 1 ≤ j → j ≤ m - 1 → c.getD (j-1) 0 = gam0 x j) :
    ∀ (i : ℕ) (y2 : Array ℚ), i ≤ m - 1 → y2.size = m + 2 →
    y2.getD 0 0 = 0 → y2.getD (m+1) 0 = 0 →
    (∀ j, 1 ≤ j → j ≤ i → y2.getD j 0 = wseq x y j) →
    (∀ j, i < j → j ≤ m → y2.getD j 0 = zsol x y m j) →
    (bwdAux c i y2).size = m + 2 ∧
    (bwdAux c i y2).getD 0 0 = 0 ∧ (bwdAux c i y2).getD (m+1) 0 = 0 ∧
    (∀ j, 1 ≤ j → j ≤ m → (bwdAux c i y2).getD j 0 = zsol x y m j) := by
  intro i
  induction i with
  | zero =>
    intro y2 _ hs h0 hm1 hlow hhigh
    rw [bwdAux]
    exact ⟨hs, h0, hm1, fun j hj1 hj2 => hhigh j (by omega) hj2⟩
  | succ k ih =>
    intro y2 hi hs h0 hm1 hlow hhigh
    rw [bwdAux]
    have hval : y2.getD (k+1) 0 - c.getD k 0 * y2.getD (k+2) 0 = zsol x y m (k+1) := by
      have h1 : y2.getD (k+1) 0 = wseq x y (k+1) := hlow (k+1) (by omega) (le_refl _)
      have h2 : c.getD k 0 = gam0 x (k+1) := hc (k+1) (by omega) (by omega)
      have h3 : y2.getD (k+2) 0 = zsol x y m (k+2) := hhigh (k+2) (by omega) (by omega)
      rw [h1, h2, h3, ← zsol_rec x y m (k+1) (by omega) (by omega)]
    apply ih _ (by omega)
    · rw [Array.size_setD, hs]
    · rw [getD_setD_ne (by omega), h0]
    · rw [getD_setD_ne (by omega), hm1]
    · intro j hj1 hj2
      rw [getD_setD_ne (by omega), hlow j hj1 (by omega)]
    · intro j hjgt hjle
      rcases eq_or_lt_of_le (by omega : k + 1 ≤ j) with heq | hlt
      · rw [← heq, getD_setD_self (by omega), hval]
      · rw [getD_setD_ne (by omega), hhigh j (by omega) hjle]

theorem setupSpline_ge4 {x : Array ℚ} (y : Array ℚ) (hn : 4 ≤ x.size) :
    ∃ Y, setupSpline x y = Except.ok Y ∧ Y.size = x.size ∧
      Y.getD 0 0 = 0 ∧ Y.getD (x.size - 1) 0 = 0 ∧
      ∀ j, 1 ≤ j → j ≤ x.size - 2 → Y.getD j 0 = zsol x y (x.size - 2) j := by
  obtain ⟨hIs, hI0, hIn1, hIrhs⟩ := y2Init_spec x y x.size (by omega)
  have hm1 : x.size - 2 + 1 = x.size - 1 := by omega
  obtain ⟨hFs, hFcs, hF0, hFm1, hFw, hFc⟩ :=
    fwdAux_spec x y (x.size - 2) (x.size - 2) 1 (y2Init x y x.size)
      (Array.mkArray (x.size - 2 - 1) 0) (2 * (x.getD 2 0 - x.getD 0 0))
      (by omega) (le_refl 1) (by omega)
      (by rw [hIs]; omega) (by rw [Array.size_mkArray])
      (bp_one x).symm hI0 (by rw [hm1]; exact hIn1)
      (fun j hj1 hj2 => absurd hj2 (by omega))
      (by rw [hIrhs 1 (le_refl 1) (by omega)]; simp [wseq_zero])
      (fun j hj1 hj2 => hIrhs j (by omega) hj2)
      (fun j hj1 hj2 => absurd hj2 (by omega))
  have hwm : zsol x y (x.size - 2) (x.size - 2) = wseq x y (x.size - 2) := by
    rw [zsol_rec x y _ _ (by omega) (le_refl _), zsol_top, mul_zero, sub_zero]
  obtain ⟨hBs, hB0, hBm1, hBz⟩ :=
    bwdAux_spec x y (x.size - 2)
      (fwdAux x (x.size - 2) (x.size - 2) 1 (y2Init x y x.size,
        Array.mkArray (x.size - 2 - 1) 0, 2 * (x.getD 2 0 - x.getD 0 0))).2.1
      hFc (x.size - 3)
      (fwdAux x (x.size - 2) (x.size - 2) 1 (y2Init x y x.size,
        Array.mkArray (x.size - 2 - 1) 0, 2 * (x.getD 2 0 - x.getD 0 0))).1
      (by omega) hFs hF0 hFm1
      (fun j hj1 hj2 => hFw j hj1 (by omega))
      (fun j hjgt hjle => by
        have hje : j = x.size - 2 := by omega
        rw [hje, hFw _ (by omega) (le_refl _)]
        exact hwm.symm)
  have hsetup : setupSpline x y = Except.ok (bwdAux
      (fwdAux x (x.size - 2) (x.size - 2) 1 (y2Init x y x.size,
        Array.mkArray (x.size - 2 - 1) 0, 2 * (x.getD 2 0 - x.getD 0 0))).2.1
      (x.size - 3)
      (fwdAux x (x.size - 2) (x.size - 2) 1 (y2Init x y x.size,
        Array.mkArray (x.size - 2 - 1) 0, 2 * (x.getD 2 0 - x.getD 0 0))).1) := by
    simp only [setupSpline]
    rw [if_neg (by omega), if_neg (by omega)]
  refine ⟨_, hsetup, by rw [hBs]; omega, hB0, by rw [← hm1]; exact hBm1, fun j hj1 hj2 => ?_⟩
  exact hBz j hj1 hj2

theorem zsol_equation {x : Array ℚ} (y : Array ℚ) {m : ℕ}
    (hh : ∀ kk : ℕ, kk ≤ m → 0 < hseq x kk) :
    ∀ i, 1 ≤ i → i ≤ m →
    hseq x (i-1) * zsol x y m (i-1) +
      2 * (x.getD (i+1) 0 - x.getD (i-1) 0) * zsol x y m i +
      hseq x i * zsol x y m (i+1) = splineRHS x y i := by
  intro i h1 h2
  obtain ⟨hgap, hbp⟩ := bp_pos hh i h1 h2
  have hbpne : bp x i ≠ 0 := ne_of_gt hbp
  have hz1 : zsol x y m (i-1) = wseq x y (i-1) - gam0 x (i-1) * zsol x y m i := by
    rcases Nat.eq_zero_or_pos (i-1) with h0 | hpos
    · rw [h0, zsol_zero, wseq_zero, gam0_zero]
      ring
    · have hrec := zsol_rec x y m (i-1) hpos (by omega)
      rwa [Nat.sub_add_cancel h1] at hrec
  have hz2 := zsol_rec x y m i h1 h2
  have hbg : bp x i * gam0 x i = hseq x i := by
    obtain ⟨k, rfl⟩ : ∃ k, i = k + 1 := ⟨i - 1, by omega⟩
    rw [gam0_succ, mul_comm, div_mul_cancel₀ _ hbpne]
  have hbw : bp x i * wseq x y i = splineRHS x y i - hseq x (i-1) * wseq x y (i-1) := by
    obtain ⟨k, rfl⟩ : ∃ k, i = k + 1 := ⟨i - 1, by omega⟩
    rw [wseq_succ, mul_comm, div_mul_cancel₀ _ hbpne]
    simp
  have hbpd : bp x i = 2 * (x.getD (i+1) 0 - x.getD (i-1) 0) -
      hseq x (i-1) * gam0 x (i-1) := by
    obtain ⟨k, rfl⟩ : ∃ k, i = k + 1 := ⟨i - 1, by omega⟩
    cases k with
    | zero =>
      show bp x 1 = 2 * (x.getD 2 0 - x.getD 0 0) - hseq x 0 * gam0 x 0
      rw [bp_one, gam0_zero, mul_zero, sub_zero]
    | succ k2 =>
      show bp x (k2+2) = 2 * (x.getD (k2+3) 0 - x.getD (k2+1) 0) -
        hseq x (k2+1) * gam0 x (k2+1)
      rw [bp_succ, gam0_succ]
  rw [hz1, hz2]
  linear_combination hbw + (gam0 x i * zsol x y m (i+1) - wseq x y i) * hbpd -
    zsol x y m (i+1) * hbg

/-- C3: for every spline-mode table over n ≥ 3 strictly increasing
arguments, the second-derivative array computed at construction satisfies
the natural boundary conditions y2[0] = y2[n-1] = 0 and, for every interior
index, the tridiagonal natural-cubic-spline equation
`(x[i]-x[i-1])*y2[i-1] + 2*(x[i+1]-x[i-1])*y2[i] + (x[i+1]-x[i])*y2[i+1]
 = 6*((y[i+1]-y[i])/(x[i+1]-x[i]) - (y[i]-y[i-1])/(x[i]-x[i-1]))`
under exact arithmetic -- by the n = 3 closed form and by the n ≥ 4
Thomas-algorithm forward-elimination/back-substitution alike. -/
theorem claim_C3_spline_tridiagonal {x y : Array ℚ} {t : Table1}
    (hs : strictIncrB x = true) (hn : 3 ≤ x.size)
    (ht : tableConstruct x y Interp.spline = Except.ok t) :
    t.y2.getD 0 0 = 0 ∧ t.y2.getD (x.size - 1) 0 = 0 ∧
    ∀ i, 1 ≤ i → i ≤ x.size - 2 →
      (x.getD i 0 - x.getD (i-1) 0) * t.y2.getD (i-1) 0 +
        2 * (x.getD (i+1) 0 - x.getD (i-1) 0) * t.y2.getD i 0 +
        (x.getD (i+1) 0 - x.getD i 0) * t.y2.getD (i+1) 0 =
      6 * ((y.getD (i+1) 0 - y.getD i 0) / (x.getD (i+1) 0 - x.getD i 0) -
           (y.getD i 0 - y.getD (i-1) 0) / (x.getD i 0 - x.getD (i-1) 0)) := by
  have hred : tableConstruct x y Interp.spline =
      match setupSpline x y with
      | .error e => Except.error e
      | .ok y2 => Except.ok ⟨.spline, ⟨x⟩, y, y2⟩ := by
    rw [tableConstruct, mkArgVec_ok (by omega)]
  rw [hred] at ht
  rcases hY : setupSpline x y with e | Y
  · rw [hY] at ht
    exact Except.noConfusion ht
  rw [hY] at ht
  injection ht with ht2
  have hty2 : t.y2 = Y := by rw [← ht2]
  rcases eq_or_lt_of_le hn with h3 | h4
  · -- n = 3: the closed-form branch
    have hYval : Y = (Array.mkArray x.size (0:ℚ)).setD 1
        (3 * ((y.getD 2 0 - y.getD 1 0) / (x.getD 2 0 - x.getD 1 0) -
              (y.getD 1 0 - y.getD 0 0) / (x.getD 1 0 - x.getD 0 0)) /
         (x.getD 2 0 - x.getD 0 0)) := by
      simp only [setupSpline] at hY
      rw [if_pos h3.symm] at hY
      injection hY with hY2
      exact hY2.symm
    have hne : x.getD 2 0 - x.getD 0 0 ≠ 0 := by
      have := sInc_lt hs (i := 0) (j := 2) (by omega) (by omega)
      exact ne_of_gt (by linarith)
    refine ⟨?_, ?_, fun i hi1 hi2 => ?_⟩
    · rw [hty2, hYval, getD_setD_ne (by omega), mkArray_getD]
    · have h01 : x.size - 1 = 2 := by omega
      rw [hty2, hYval, h01, getD_setD_ne (by omega), mkArray_getD]
    · have hi : i = 1 := by omega
      subst hi
      have e0 : (1:ℕ) - 1 = 0 := rfl
      have e2 : (1:ℕ) + 1 = 2 := rfl
      rw [e0, e2, hty2, hYval, getD_setD_ne (by omega : (1:ℕ) ≠ 0),
        getD_setD_ne (by omega : (1:ℕ) ≠ 2), mkArray_getD, mkArray_getD,
        getD_setD_self (by rw [Array.size_mkArray]; omega)]
      rw [mul_zero, mul_zero, add_zero, zero_add]
      generalize ((y.getD 2 0 - y.getD 1 0) / (x.getD 2 0 - x.getD 1 0) -
        (y.getD 1 0 - y.getD 0 0) / (x.getD 1 0 - x.getD 0 0)) = S
      generalize hD : x.getD 2 0 - x.getD 0 0 = D
      rw [hD] at hne
      field_simp
      ring
  · -- n ≥ 4: the Thomas-algorithm branch
    obtain ⟨Y2, hY2eq, hY2s, hY20, hY2n1, hY2z⟩ := setupSpline_ge4 (x := x) y (by omega)
    have hYY : Y = Y2 := by
      rw [hY] at hY2eq
      exact (Except.ok.injEq _ _).mp hY2eq
    subst hYY
    have hh : ∀ kk : ℕ, kk ≤ x.size - 2 → 0 < hseq x kk := by
      intro kk hkk
      have := sInc_step hs (i := kk) (by omega)
      rw [hseq]
      linarith
    refine ⟨by rw [hty2]; exact hY20, by rw [hty2]; exact hY2n1, fun i hi1 hi2 => ?_⟩
    have heqn := zsol_equation y hh i hi1 hi2
    rw [hseq, hseq, splineRHS] at heqn
    have e1 : i - 1 + 1 = i := by omega
    rw [e1] at heqn
    have hz0 : t.y2.getD (i-1) 0 = zsol x y (x.size-2) (i-1) := by
      rcases Nat.eq_zero_or_pos (i-1) with h0 | hpos
      · rw [h0, hty2, hY20, zsol_zero]
      · rw [hty2]; exact hY2z (i-1) hpos (by omega)
    have hz1 : t.y2.getD i 0 = zsol x y (x.size-2) i := by
      rw [hty2]; exact hY2z i hi1 hi2
    have hz2 : t.y2.getD (i+1) 0 = zsol x y (x.size-2) (i+1) := by
      rcases eq_or_lt_of_le hi2 with heq | hlt
      · have ea : i + 1 = x.size - 1 := by omega
        have eb : i + 1 = (x.size - 2) + 1 := by omega
        have hzero : t.y2.getD (i+1) 0 = 0 := by rw [ea, hty2]; exact hY2n1
        rw [hzero, eb, zsol_top]
      · rw [hty2]; exact hY2z (i+1) (by omega) (by omega)
    rw [hz0, hz1, hz2]
    exact heqn

/-- C3 witness: the theorem applied to the concrete non-uniform spline table
over x = [0, 1, 2, 4], y = [0, 1, 0, 2], whose Thomas solve yields
y2 = [0, -84/23, 60/23, 0]; the boundary zeros and the interior equation at
i = 1 are instantiated. -/
theorem claim_C3_spline_tridiagonal_witness :
    (Table1.mk Interp.spline ⟨#[(0:ℚ), 1, 2, 4]⟩ #[0, 1, 0, 2]
      #[0, -84/23, 60/23, 0]).y2.getD 0 0 = 0 ∧
    (Table1.mk Interp.spline ⟨#[(0:ℚ), 1, 2, 4]⟩ #[0, 1, 0, 2]
      #[0, -84/23, 60/23, 0]).y2.getD (#[(0:ℚ), 1, 2, 4].size - 1) 0 = 0 ∧
    ((#[(0:ℚ), 1, 2, 4]).getD 1 0 - (#[(0:ℚ), 1, 2, 4]).getD 0 0) *
        (Table1.mk Interp.spline ⟨#[(0:ℚ), 1, 2, 4]⟩ #[0, 1, 0, 2]
          #[0, -84/23, 60/23, 0]).y2.getD 0 0 +
      2 * ((#[(0:ℚ), 1, 2, 4]).getD 2 0 - (#[(0:ℚ), 1, 2, 4]).getD 0 0) *
        (Table1.mk Interp.spline ⟨#[(0:ℚ), 1, 2, 4]⟩ #[0, 1, 0, 2]
          #[0, -84/23, 60/23, 0]).y2.getD 1 0 +
      ((#[(0:ℚ), 1, 2, 4]).getD 2 0 - (#[(0:ℚ), 1, 2, 4]).getD 1 0) *
        (Table1.mk Interp.spline ⟨#[(0:ℚ), 1, 2, 4]⟩ #[0, 1, 0, 2]
          #[0, -84/23, 60/23, 0]).y2.getD 2 0 =
      6 * (((#[(0:ℚ), 1, 0, 2]).getD 2 0 - (#[(0:ℚ), 1, 0, 2]).getD 1 0) /
            ((#[(0:ℚ), 1, 2, 4]).getD 2 0 - (#[(0:ℚ), 1, 2, 4]).getD 1 0) -
           ((#[(0:ℚ), 1, 0, 2]).getD 1 0 - (#[(0:ℚ), 1, 0, 2]).getD 0 0) /
            ((#[(0:ℚ), 1, 2, 4]).getD 1 0 - (#[(0:ℚ), 1, 2, 4]).getD 0 0)) := by
  obtain ⟨ha, hb, hc⟩ := claim_C3_spline_tridiagonal
    (x := #[(0:ℚ), 1, 2, 4]) (y := #[0, 1, 0, 2])
    (t := Table1.mk Interp.spline ⟨#[(0:ℚ), 1, 2, 4]⟩ #[0, 1, 0, 2]
      #[0, -84/23, 60/23, 0])
    (by decide) (by decide) (by decide)
  exact ⟨ha, hb, hc 1 (by decide) (by decide)⟩

end GalsimTable

